import Mathlib

/-!
Verification of the IP-Checker registry and reachability core (`src/app.py`).

This file gives a shallow embedding of the core of `src/app.py`, translated
function by function from the Python source:

* Python strings are Lean `String` / `List Char`; the small string helpers
  (`str.strip`, `str.split`, `str.endswith`, `in`, `str.isdigit`, `int`) are
  modelled over character lists.
* The standard-library `ipaddress` module functions that the source calls
  (`ip_address`, `ip_network(..., strict=False)`) are embedded following
  CPython's `ipaddress.py` parsing rules.
* The SQLite table `ip_registry` is a `List HostRecord`; each SQL statement
  of the source is translated to the corresponding pure list operation
  (the `UNIQUE` constraint on `ip_address` raising `IntegrityError`, `UPDATE
  ... WHERE`, `SELECT ... ORDER BY created_at DESC`, `fetchone`).
* The external collaborators (reverse DNS, the ping subprocess, the UTC
  clock) are inputs: an environment assigning to each address the outcome of
  its DNS lookup / subprocess invocation, and a clock assigning a timestamp
  to each call of `_now_iso`.  `subprocess.run(cmd, ..., timeout=15,
  check=False)` returns a completed process for every exit code
  (`check=False`), but still raises `TimeoutExpired` when the timeout
  expires and `FileNotFoundError` when the binary is missing: those two
  outcomes are explicit constructors, and functions that let them escape
  return `Except`.
-/

/-- Python `str.strip()` whitespace test, for the ASCII whitespace characters
(the source only ever strips form input and IP literals; wider Unicode space
classes are not modelled). -/
def isPySpace (c : Char) : Bool :=
  c = ' ' || c = '\t' || c = '\n' || c = '\r' || c = '\x0b' || c = '\x0c'

/-- `str.strip()` on a character list: drop whitespace from both ends. -/
def stripChars (l : List Char) : List Char :=
  ((l.dropWhile isPySpace).reverse.dropWhile isPySpace).reverse

/-- Python `str.strip()`. -/
def pyStrip (s : String) : String :=
  String.mk (stripChars s.data)

/-- Value of a base-10 digit string (`int(s)` on a string of digits). -/
def digitsToNat (l : List Char) : Nat :=
  l.foldl (fun acc c => acc * 10 + (c.toNat - 48)) 0

/-- Python `s.split(sep)` for a one-character separator: splits on every
occurrence, keeping empty pieces (`"a//b".split("/") == ["a", "", "b"]`). -/
def splitListChar (sep : Char) : List Char → List (List Char)
  | [] => [[]]
  | c :: cs =>
    match splitListChar sep cs with
    | [] => [[]]
    | g :: gs => if c = sep then [] :: g :: gs else (c :: g) :: gs

/-- Python `s.endswith(pat)`: the last `pat.length` characters are `pat`. -/
def endsWithChars (l pat : List Char) : Bool :=
  decide (l.drop (l.length - pat.length) = pat)

/-- Python `s.startswith(pat)`: the first `pat.length` characters are `pat`. -/
def startsWithChars (l pat : List Char) : Bool :=
  decide (l.take pat.length = pat)

/-- Python `int(s)` restricted to plain digit strings, the only shape the
source ever feeds it on the paths modelled here (`None` models the
`ValueError` raised on anything that is not a number). -/
def pyIntOfDigits (l : List Char) : Option Nat :=
  if l ≠ [] ∧ l.all Char.isDigit then some (digitsToNat l) else none

/-! ## CPython `ipaddress` parsing, as called by the source -/

/-- `IPv4Address._parse_octet`: 1–3 ASCII digits, no leading zero, value
at most 255. -/
def parseOctetChars (g : List Char) : Option Nat :=
  if g = [] then none
  else if ¬ g.all Char.isDigit then none
  else if g.length > 3 then none
  else if g.length > 1 ∧ g.headD '0' = '0' then none
  else if digitsToNat g > 255 then none
  else some (digitsToNat g)

/-- `IPv4Address(s)`: exactly four dot-separated groups, each a valid
octet, returned as a quadruple. -/
def parseIPv4core (l : List Char) : Option (Nat × Nat × Nat × Nat) :=
  match splitListChar '.' l with
  | [g1, g2, g3, g4] =>
    match parseOctetChars g1, parseOctetChars g2, parseOctetChars g3, parseOctetChars g4 with
    | some a, some b, some c, some d => some (a, b, c, d)
    | _, _, _, _ => none
  | _ => none

/-- The 32-bit integer of an IPv4 quadruple. -/
def ipv4ToInt (q : Nat × Nat × Nat × Nat) : Nat :=
  ((q.1 * 256 + q.2.1) * 256 + q.2.2.1) * 256 + q.2.2.2

/-- Hexadecimal digit test (`IPv6Address._HEX_DIGITS`). -/
def isHexDigitChar (c : Char) : Bool :=
  c.isDigit || ('a' ≤ c && c ≤ 'f') || ('A' ≤ c && c ≤ 'F')

/-- `IPv6Address._parse_hextet`: 1–4 hexadecimal digits. -/
def validHextet (g : List Char) : Bool :=
  !g.isEmpty && g.length ≤ 4 && g.all isHexDigitChar

/-- Indexes of the empty groups strictly inside the `':'`-split of an IPv6
literal (candidate positions of the `::` gap). -/
def interiorEmptyIdxs (parts : List (List Char)) : List Nat :=
  (List.range parts.length).filter
    (fun i => decide (0 < i) && decide (i + 1 < parts.length) && (parts.getD i [' ']).isEmpty)

/-- `IPv6Address._ip_int_from_string`, after the `':'`-split and the
substitution of an embedded IPv4 tail: validity of the hextet groups around
at most one `::` gap. -/
def parseIPv6parts (parts : List (List Char)) : Bool :=
  match interiorEmptyIdxs parts with
  | [] => parts.length = 8 && parts.all validHextet
  | [i] =>
    let headEmpty := (parts.headD [' ']).isEmpty
    let lastEmpty := (parts.getLastD [' ']).isEmpty
    let hi := if headEmpty then i - 1 else i
    let lo0 := parts.length - i - 1
    let lo := if lastEmpty then lo0 - 1 else lo0
    if headEmpty && !decide (i = 1) then false
    else if lastEmpty && !decide (lo0 = 1) then false
    else if hi + lo ≥ 8 then false
    else (parts.take hi).all validHextet && (parts.drop (parts.length - lo)).all validHextet
  | _ => false

/-- An IPv6 literal without a zone id: split on `':'`; at least 3 and (after
replacing a dotted IPv4 tail by its two hextets, `'%x' % (v >> 16)` and
`'%x' % (v & 0xFFFF)`) at most 9 groups, valid around at most one `::`. -/
def parseIPv6addr (l : List Char) : Bool :=
  if l.isEmpty then false
  else
    let parts := splitListChar ':' l
    if parts.length < 3 then false
    else
      match parts.getLast? with
      | none => false
      | some last =>
        let expanded : Option (List (List Char)) :=
          if last.contains '.' then
            match parseIPv4core last with
            | none => none
            | some q =>
              some (parts.dropLast ++
                [Nat.toDigits 16 (ipv4ToInt q / 65536), Nat.toDigits 16 (ipv4ToInt q % 65536)])
          else some parts
        match expanded with
        | none => false
        | some ps => if ps.length > 9 then false else parseIPv6parts ps

/-- `IPv6Address(s)`: rejects any `'/'` in the string, then an optional
`%zone` suffix (non-empty, no further `%`) after the address proper. -/
def parseIPv6 (s : String) : Bool :=
  if s.data.contains '/' then false
  else
    match splitListChar '%' s.data with
    | [addr] => parseIPv6addr addr
    | [addr, zone] => !zone.isEmpty && parseIPv6addr addr
    | _ => false

/-- Result of `ipaddress.ip_address`: an IPv4 quadruple or an IPv6 address
(whose numeric value the source never uses, only its version). -/
inductive IPAddr where
  | v4 (q : Nat × Nat × Nat × Nat)
  | v6
deriving Repr, DecidableEq

/-- `ipaddress.ip_address(s)`: try IPv4 first, then IPv6; `none` models the
`ValueError` on anything else. -/
def ip_address_parse (s : String) : Option IPAddr :=
  match parseIPv4core s.data with
  | some q => some (.v4 q)
  | none => if parseIPv6 s then some .v6 else none

/-- `IPv4Network._prefix_from_prefix_string`: ASCII digit string (leading
zeros allowed here), value at most 32. -/
def prefixFromString (g : List Char) : Option Nat :=
  if !g.isEmpty && g.all Char.isDigit then
    if digitsToNat g ≤ 32 then some (digitsToNat g) else none
  else none

/-- `IPv4Network._prefix_from_ip_int`: the prefix length whose netmask
(`p` one bits then zeros, i.e. `2^32 - 2^(32-p)`) equals `m`, if any. -/
def prefixFromMaskInt (m : Nat) : Option Nat :=
  (List.range 33).find? (fun p => decide (m = 4294967296 - 2 ^ (32 - p)))

/-- `IPv4Network._make_netmask` on the part after `/`: a prefix-length
string, else a dotted netmask, else a dotted hostmask (the complement,
`ip_int ^ ALL_ONES = 4294967295 - ip_int`). -/
def parseNetmaskArg (g : List Char) : Option Nat :=
  match prefixFromString g with
  | some p => some p
  | none =>
    match parseIPv4core g with
    | none => none
    | some q =>
      match prefixFromMaskInt (ipv4ToInt q) with
      | some p => some p
      | none => prefixFromMaskInt (4294967295 - ipv4ToInt q)

/-- `ipaddress.ip_network(s, strict=False)` restricted to the IPv4 outcome
the source inspects: the pair (network integer, prefix length), where the
network integer is the address with its host bits cleared
(`addr & netmask`, written `addr / 2^(32-p) * 2^(32-p)`).  `none` covers
both the `ValueError` of an unparsable literal and a successful parse as an
IPv6 network: both make every caller in the source take its non-IPv4 path
(the callers test `network.version == 4`). -/
def ipv4NetworkOfString (s : String) : Option (Nat × Nat) :=
  match splitListChar '/' s.data with
  | [a] => (parseIPv4core a).map (fun q => (ipv4ToInt q, 32))
  | [a, m] =>
    match parseIPv4core a, parseNetmaskArg m with
    | some q, some p => some (ipv4ToInt q / 2 ^ (32 - p) * 2 ^ (32 - p), p)
    | _, _ => none
  | _ => none

/-- The dotted-quad rendering of a 32-bit address integer
(`str(IPv4Address(n))`). -/
def v4IntToDotted (n : Nat) : String :=
  toString (n / 16777216 % 256) ++ "." ++ toString (n / 65536 % 256) ++ "." ++
    toString (n / 256 % 256) ++ "." ++ toString (n % 256)

/-- `str(network)` for an IPv4 network: `"a.b.c.d/p"`. -/
def v4netToString (np : Nat × Nat) : String :=
  v4IntToDotted np.1 ++ "/" ++ toString np.2

/-! ## The application core (`src/app.py`) -/

/-- `HOST_TYPE_OPTIONS` (src/app.py line 22). -/
def HOST_TYPE_OPTIONS : List String :=
  ["NOTEBOOK", "DESKTOP", "SERVER", "IMPRESORA", "ROUTER", "OTRO"]

/-- One row of the `ip_registry` table. -/
structure HostRecord where
  id : Nat
  ip_address : String
  «alias» : Option String
  host_name : Option String
  host_type : Option String
  location : Option String
  notes : Option String
  hostname : Option String
  last_ping_at : Option String
  last_status : Option String
  last_output : Option String
  created_at : String
deriving Repr, DecidableEq, Inhabited

/-- `is_valid_ip` (src/app.py lines 70–75). -/
def is_valid_ip (ip_value : String) : Bool :=
  (ip_address_parse (pyStrip ip_value)).isSome

/-- The `AUTOINCREMENT` id for a fresh row: one past the largest id. -/
def freshId (db : List HostRecord) : Nat :=
  (db.map HostRecord.id).foldr max 0 + 1

/-- `«alias».strip() if «alias» else None` (src/app.py line 91): a missing or
empty «alias» is stored as null, anything else as its stripped value. -/
def aliasStored («alias» : Option String) : Option String :=
  match «alias» with
  | none => none
  | some a => if a = "" then none else some (pyStrip a)

/-- `register_ip` (src/app.py lines 82–96).  `now` is the value of
`_now_iso()`; the result is the new table together with the returned
`(ok, message)` pair.  The duplicate branch models the `IntegrityError`
raised by the `UNIQUE` constraint on `ip_address`. -/
def register_ip (ip_address : String) («alias» : Option String) (now : String)
    (db : List HostRecord) : List HostRecord × Bool × String :=
  let clean_ip := pyStrip ip_address
  if ¬ is_valid_ip clean_ip then (db, false, "La IP no es válida")
  else if (db.find? (fun r => r.ip_address == clean_ip)).isSome then
    (db, false, "La IP ya estaba registrada")
  else
    (db ++ [{ id := freshId db, ip_address := clean_ip, «alias» := aliasStored «alias»,
              host_name := none, host_type := none, location := none, notes := none,
              hostname := none, last_ping_at := none, last_status := none,
              last_output := none, created_at := now }],
     true, "IP registrada correctamente")

/-- `s.strip() or None` (src/app.py lines 122–126): empty after trimming is
stored as null. -/
def strOrNone (s : String) : Option String :=
  if pyStrip s = "" then none else some (pyStrip s)

/-- `update_host_details` (src/app.py lines 99–131). -/
def update_host_details (ip_address host_name host_type location notes «alias» : String)
    (db : List HostRecord) : List HostRecord × Bool × String :=
  if host_type ≠ "" ∧ host_type ∉ HOST_TYPE_OPTIONS then
    (db, false, "Tipo de host inválido")
  else if (db.find? (fun r => r.ip_address == ip_address)).isNone then
    (db, false, "No existe la IP indicada")
  else
    (db.map (fun r =>
       if r.ip_address = ip_address then
         { r with «alias» := strOrNone «alias», host_name := strOrNone host_name,
                  host_type := strOrNone host_type, location := strOrNone location,
                  notes := strOrNone notes }
       else r),
     true, "Host actualizado")

/-- `get_ip_row` (src/app.py lines 243–254): `fetchone` on
`SELECT ... WHERE ip_address = ?` is the first matching row. -/
def get_ip_row (ip_address : String) (db : List HostRecord) : Option HostRecord :=
  db.find? (fun r => r.ip_address == ip_address)

/-- Outcome of `subprocess.run(cmd, capture_output=True, text=True,
timeout=15, check=False)`: with `check=False` every exit code yields a
completed process, but expiry of the 15-second timeout raises
`TimeoutExpired` and a missing `ping` binary raises `FileNotFoundError`. -/
inductive SubprocessResult where
  | completed (returncode : Int) (stdout stderr : String)
  | timeoutExpired
  | fileNotFound
deriving Repr, DecidableEq

/-- The exceptions `subprocess.run` can raise here. -/
inductive PingExn where
  | timeoutExpired
  | fileNotFound
deriving Repr, DecidableEq

/-- `run_ping` (src/app.py lines 142–149), over the outcome of its
subprocess invocation (the platform-dependent argument vector does not
affect the returned pair).  The two exceptional outcomes escape as
exceptions: nothing in `run_ping` catches them. -/
def run_ping (r : SubprocessResult) : Except PingExn (String × String) :=
  match r with
  | .completed rc out err =>
    let output := out ++ err
    if rc = 0 then .ok ("OK", pyStrip output)
    else .ok ("ERROR",
      if pyStrip output ≠ "" then pyStrip output
      else "Ping fallido con código " ++ toString rc)
  | .timeoutExpired => .error .timeoutExpired
  | .fileNotFound => .error .fileNotFound

/-- The loop body of `ping_all_registered_ips`: for each snapshot pair
`(id, ip_address)` in order, resolve the hostname, ping, and `UPDATE` the
four reachability columns of the rows with that id in a single statement.
`k` counts the `_now_iso()` calls.  An exception from `run_ping` aborts the
loop; the error carries the table as committed so far. -/
def pingLoop (resolveEnv : String → Option String) (pingEnv : String → SubprocessResult)
    (clock : Nat → String) :
    List (Nat × String) → Nat → List HostRecord →
    Except (PingExn × List HostRecord) (List HostRecord)
  | [], _, cur => .ok cur
  | (rid, ip) :: rest, k, cur =>
    let hn := resolveEnv ip
    match run_ping (pingEnv ip) with
    | .error e => .error (e, cur)
    | .ok (status, output) =>
      pingLoop resolveEnv pingEnv clock rest (k + 1)
        (cur.map (fun r =>
          if r.id = rid then
            { r with hostname := hn, last_ping_at := some (clock k),
                     last_status := some status, last_output := some output }
          else r))

/-- `ping_all_registered_ips` (src/app.py lines 152–169): snapshot
`(id, ip_address)` of every row, then the per-address loop.
`resolveEnv` is the outcome of `resolve_hostname` (which absorbs all of its
own errors into `None`), `pingEnv` the outcome of the ping subprocess, and
`clock` the successive values of `_now_iso()`. -/
def ping_all_registered_ips (resolveEnv : String → Option String)
    (pingEnv : String → SubprocessResult) (clock : Nat → String)
    (db : List HostRecord) : Except (PingExn × List HostRecord) (List HostRecord) :=
  pingLoop resolveEnv pingEnv clock (db.map (fun r => (r.id, r.ip_address))) 0 db

/-- `infer_segment_24` (src/app.py lines 172–176); `none` models the
`ValueError` of `ip_address` on an invalid literal. -/
def infer_segment_24 (ip_address : String) : Option String :=
  match ip_address_parse ip_address with
  | none => none
  | some .v6 => some "IPv6"
  | some (.v4 _) => (ipv4NetworkOfString (ip_address ++ "/24")).map v4netToString

/-- The first branch of `normalize_segment_filter` (src/app.py lines
186–189): `value.endswith("/24") and "." not in value`, then the first
`'/'`-separated piece must be a digit string of value at most 255 (the
lower bound `0 <= int(octet)` always holds).  Returns that value. -/
def third_octet_shortcut (value : List Char) : Option Nat :=
  if endsWithChars value ['/', '2', '4'] && !value.contains '.' then
    let octet := (splitListChar '/' value).headD []
    if !octet.isEmpty && octet.all Char.isDigit && decide (digitsToNat octet ≤ 255) then
      some (digitsToNat octet)
    else none
  else none

/-- `normalize_segment_filter` (src/app.py lines 179–198).  The token
`f"THIRD_OCTET:{int(octet)}"` renders the parsed value, so leading zeros
are normalized away. -/
def normalize_segment_filter (raw_value : Option String) : Option String :=
  match raw_value with
  | none => none
  | some rv =>
    if rv = "" then none
    else
      let value := pyStrip rv
      if value = "" then none
      else
        match third_octet_shortcut value.data with
        | some n => some ("THIRD_OCTET:" ++ toString n)
        | none =>
          match ipv4NetworkOfString value with
          | some np => if np.2 = 24 then some (v4netToString np) else none
          | none => none

/-- One element of the list returned by `get_rows`: the selected columns of
the row plus its computed `segment`. -/
structure RenderedRow where
  ip_address : String
  «alias» : Option String
  host_name : Option String
  host_type : Option String
  location : Option String
  notes : Option String
  hostname : Option String
  last_ping_at : Option String
  last_status : Option String
  last_output : Option String
  segment : String
deriving Repr, DecidableEq, Inhabited

/-- The `current` dict built for one row (src/app.py lines 214–226). -/
def renderRow (r : HostRecord) (segment : String) : RenderedRow :=
  { ip_address := r.ip_address, «alias» := r.«alias», host_name := r.host_name,
    host_type := r.host_type, location := r.location, notes := r.notes,
    hostname := r.hostname, last_ping_at := r.last_ping_at,
    last_status := r.last_status, last_output := r.last_output, segment := segment }

/-- The filter test of `get_rows` (src/app.py lines 228–237): `true` keeps
the row, `false` skips it (`continue`), `none` models the `ValueError` of
`int(...)` on a non-numeric octet or token remainder.  For a
`THIRD_OCTET:` token, `split(":", maxsplit=1)[1]` is the part after the
first colon, i.e. everything past the 12-character token head. -/
def rowKeep (segment_filter : Option String) (r : HostRecord) (segment : String) :
    Option Bool :=
  match segment_filter with
  | none => some true
  | some f =>
    if f = "" then some true
    else if startsWithChars f.data "THIRD_OCTET:".data then
      if segment = "IPv6" then some false
      else
        match pyIntOfDigits ((splitListChar '.' r.ip_address.data).getD 2 []),
              pyIntOfDigits (f.data.drop 12) with
        | some third_octet, some requested => some (decide (third_octet = requested))
        | _, _ => none
    else some (decide (segment = f))

/-- The per-row loop of `get_rows` (src/app.py lines 211–239) over an
already-ordered row list: compute the segment, apply the filter, append. -/
def rowsLoop (segment_filter : Option String) : List HostRecord → Option (List RenderedRow)
  | [] => some []
  | r :: rest =>
    match infer_segment_24 r.ip_address with
    | none => none
    | some segment =>
      match rowKeep segment_filter r segment with
      | none => none
      | some keep =>
        match rowsLoop segment_filter rest with
        | none => none
        | some tail => some (if keep then renderRow r segment :: tail else tail)

/-- Insertion step for `ORDER BY created_at DESC` (SQLite compares `TEXT`
with `memcmp` on UTF-8 bytes, which is the lexicographic `String` order). -/
def insertByCreatedDesc (r : HostRecord) : List HostRecord → List HostRecord
  | [] => [r]
  | x :: xs =>
    if x.created_at ≤ r.created_at then r :: x :: xs else x :: insertByCreatedDesc r xs

/-- `SELECT ... ORDER BY created_at DESC`: the rows sorted by `created_at`
descending (the relative order of ties is unspecified in SQLite; this picks
one such order). -/
def sortByCreatedDesc (db : List HostRecord) : List HostRecord :=
  db.foldr insertByCreatedDesc []

/-- `get_rows` (src/app.py lines 201–240). -/
def get_rows (segment_filter : Option String) (db : List HostRecord) :
    Option (List RenderedRow) :=
  rowsLoop segment_filter (sortByCreatedDesc db)

/-- The "bare third-octet" filter input in the words of the specification:
"a bare decimal in [0,255] followed by `/24` and containing no dot".  This
definition follows the spec's words, not the source, and exists only to
compare the specified input class with the source's `third_octet_shortcut`
condition. -/
def spec_bare_third_octet_input (s : String) : Bool :=
  let pre := s.data.take (s.data.length - 3)
  decide (s.data = pre ++ ['/', '2', '4']) && !pre.isEmpty && pre.all Char.isDigit &&
    decide (digitsToNat pre ≤ 255)

/-- The reachability fields of `r'` are those of `r` overwritten by one
probe outcome: hostname, timestamp, status and output set together, the
status one of `OK`/`ERROR`, everything else untouched (the single `UPDATE`
statement of the probe loop). -/
def probeWritten (r r' : HostRecord) : Prop :=
  ∃ hn t st out, (st = "OK" ∨ st = "ERROR") ∧
    r' = { r with hostname := hn, last_ping_at := some t,
                  last_status := some st, last_output := some out }

/-! ### Concrete fixtures used by counterexamples and witnesses -/

/-- A registered row with no metadata and no probe results yet. -/
def recA : HostRecord :=
  { id := 1, ip_address := "10.0.0.1", «alias» := none, host_name := none,
    host_type := none, location := none, notes := none, hostname := none,
    last_ping_at := none, last_status := none, last_output := none,
    created_at := "2024-01-01T00:00:01+00:00" }

/-- A second registered row. -/
def recB : HostRecord :=
  { id := 2, ip_address := "10.0.0.2", «alias» := none, host_name := none,
    host_type := none, location := none, notes := none, hostname := none,
    last_ping_at := none, last_status := none, last_output := none,
    created_at := "2024-01-01T00:00:02+00:00" }

/-- A registered row on the 192.168.56.0/24 segment (the spec's example). -/
def rec56 : HostRecord :=
  { id := 1, ip_address := "192.168.56.10", «alias» := some "seg56", host_name := none,
    host_type := none, location := none, notes := none, hostname := none,
    last_ping_at := none, last_status := none, last_output := none,
    created_at := "2024-01-01T00:00:01+00:00" }

/-- A registered row on the 192.168.59.0/24 segment (the spec's example). -/
def rec59 : HostRecord :=
  { id := 2, ip_address := "192.168.59.20", «alias» := some "seg59", host_name := none,
    host_type := none, location := none, notes := none, hostname := none,
    last_ping_at := none, last_status := none, last_output := none,
    created_at := "2024-01-01T00:00:02+00:00" }

/-- Reverse DNS failing for every address (`resolve_hostname` returns
`None`). -/
def envResolveNone : String → Option String := fun _ => none

/-- A ping environment where the first address's subprocess times out and
every other ping succeeds. -/
def envPingTimeoutFirst : String → SubprocessResult := fun ip =>
  if ip = "10.0.0.1" then .timeoutExpired else .completed 0 "pong" ""

/-- A ping environment where every ping succeeds. -/
def envPingAllOk : String → SubprocessResult := fun _ => .completed 0 "pong" ""

/-- A deterministic clock for `_now_iso`. -/
def clkT : Nat → String := fun k => "T" ++ toString k

/-! ## Helper lemmas: strings -/

theorem data_append (a b : String) : (a ++ b).data = a.data ++ b.data := rfl

theorem dropWhile_idem (p : Char → Bool) (l : List Char) :
    (l.dropWhile p).dropWhile p = l.dropWhile p := by
  induction l with
  | nil => rfl
  | cons a l ih =>
    by_cases h : p a = true
    · simp [List.dropWhile_cons, h, ih]
    · simp [List.dropWhile_cons, h]

theorem dropWhile_head_not (p : Char → Bool) (l : List Char) :
    l.dropWhile p = [] ∨ ∃ c t, l.dropWhile p = c :: t ∧ p c = false := by
  induction l with
  | nil => exact Or.inl rfl
  | cons a l ih =>
    by_cases h : p a = true
    · simpa [List.dropWhile_cons, h] using ih
    · exact Or.inr ⟨a, l, by simp [List.dropWhile_cons, h], by simpa using h⟩

theorem getLast?_dropWhile (p : Char → Bool) (l : List Char) (h : l.dropWhile p ≠ []) :
    (l.dropWhile p).getLast? = l.getLast? := by
  induction l with
  | nil => simp at h
  | cons a l ih =>
    by_cases hp : p a = true
    · rw [List.dropWhile_cons, if_pos hp] at h ⊢
      have hl : l ≠ [] := by rintro rfl; simp at h
      obtain ⟨b, t, rfl⟩ := List.exists_cons_of_ne_nil hl
      rw [ih h, List.getLast?_cons_cons]
    · rw [List.dropWhile_cons, if_neg hp]

theorem dropWhile_eq_self_of_all (p : Char → Bool) (l : List Char)
    (h : ∀ c ∈ l, p c = false) : l.dropWhile p = l := by
  cases l with
  | nil => rfl
  | cons a t =>
    rw [List.dropWhile_cons, if_neg]
    simp [h a (by simp)]

theorem stripChars_of_no_space (l : List Char)
    (h : ∀ c ∈ l, isPySpace c = false) : stripChars l = l := by
  unfold stripChars
  rw [dropWhile_eq_self_of_all _ _ h, dropWhile_eq_self_of_all, List.reverse_reverse]
  intro c hc
  exact h c (by simpa using hc)

theorem stripChars_idem (l : List Char) : stripChars (stripChars l) = stripChars l := by
  unfold stripChars
  set p := isPySpace
  set d := l.dropWhile p with hd
  set e := d.reverse.dropWhile p with he
  by_cases hke : e = []
  · simp [hke]
  · have hm : (e.reverse).dropWhile p = e.reverse := by
      have h1 : e.reverse.head? = e.getLast? := List.head?_reverse e
      have h2 : e.getLast? = d.reverse.getLast? := getLast?_dropWhile p d.reverse hke
      have hdne : d ≠ [] := by
        rintro hdn
        rw [hdn] at he
        simp at he
        exact hke he
      have h3 : d.reverse.getLast? = d.head? := List.getLast?_reverse d
      rcases dropWhile_head_not p l with h4 | ⟨c, t, h4, h5⟩
      · exact absurd h4 hdne
      · rw [← hd] at h4
        have h6 : e.reverse.head? = some c := by rw [h1, h2, h3, h4]; rfl
        obtain ⟨m, hm2⟩ : ∃ m, e.reverse = c :: m := by
          cases hrev : e.reverse with
          | nil => rw [hrev] at h6; simp at h6
          | cons x xs =>
            rw [hrev] at h6
            simp at h6
            exact ⟨xs, by rw [h6]⟩
        rw [hm2, List.dropWhile_cons, if_neg (by simp [h5])]
    rw [hm, List.reverse_reverse, dropWhile_idem]

theorem pyStrip_idem (s : String) : pyStrip (pyStrip s) = pyStrip s := by
  simp [pyStrip, stripChars_idem]

/-! ## Helper lemmas: splitting -/

theorem splitListChar_ne_nil (sep : Char) (l : List Char) : splitListChar sep l ≠ [] := by
  cases l with
  | nil => simp [splitListChar]
  | cons c cs =>
    rw [splitListChar]
    cases splitListChar sep cs with
    | nil => simp
    | cons g gs =>
      by_cases h : c = sep <;> simp [h]

theorem splitListChar_of_not_mem (sep : Char) (l : List Char) (h : sep ∉ l) :
    splitListChar sep l = [l] := by
  induction l with
  | nil => rfl
  | cons a t ih =>
    have ha : a ≠ sep := fun hh => h (by simp [hh])
    rw [splitListChar, ih (fun hm => h (by simp [hm]))]
    simp [ha]

theorem splitListChar_append (sep : Char) (l r : List Char) (h : sep ∉ l) :
    splitListChar sep (l ++ sep :: r) = l :: splitListChar sep r := by
  induction l with
  | nil =>
    rw [List.nil_append, splitListChar]
    obtain ⟨g, gs, hg⟩ : ∃ g gs, splitListChar sep r = g :: gs := by
      cases hr : splitListChar sep r with
      | nil => exact absurd hr (splitListChar_ne_nil sep r)
      | cons g gs => exact ⟨g, gs, rfl⟩
    rw [hg]
    simp
  | cons a t ih =>
    have ha : a ≠ sep := fun hh => h (by simp [hh])
    rw [List.cons_append, splitListChar, ih (fun hm => h (by simp [hm]))]
    simp [ha]

theorem length_splitListChar (sep : Char) (l : List Char) :
    (splitListChar sep l).length = l.count sep + 1 := by
  induction l with
  | nil => simp [splitListChar]
  | cons a t ih =>
    rw [splitListChar]
    obtain ⟨g, gs, hg⟩ : ∃ g gs, splitListChar sep t = g :: gs := by
      cases hr : splitListChar sep t with
      | nil => exact absurd hr (splitListChar_ne_nil sep t)
      | cons g gs => exact ⟨g, gs, rfl⟩
    rw [hg] at ih ⊢
    by_cases h : a = sep
    · simp [h, List.count_cons] at ih ⊢
      omega
    · simp [h, List.count_cons] at ih ⊢
      omega

theorem mem_of_splitListChar (sep : Char) (l : List Char) (c : Char) (hc : c ∈ l) :
    c = sep ∨ ∃ g ∈ splitListChar sep l, c ∈ g := by
  induction l with
  | nil => simp at hc
  | cons a t ih =>
    obtain ⟨g, gs, hg⟩ : ∃ g gs, splitListChar sep t = g :: gs := by
      cases hr : splitListChar sep t with
      | nil => exact absurd hr (splitListChar_ne_nil sep t)
      | cons g gs => exact ⟨g, gs, rfl⟩
    rw [splitListChar, hg]
    rcases List.mem_cons.mp hc with rfl | hct
    · by_cases h : c = sep
      · exact Or.inl h
      · exact Or.inr ⟨c :: g, by simp [h], by simp⟩
    · rcases ih hct with h | ⟨g', hg', hcg'⟩
      · exact Or.inl h
      · rw [hg] at hg'
        by_cases h : a = sep
        · refine Or.inr ⟨g', ?_, hcg'⟩
          simp only [h, if_pos]
          rcases List.mem_cons.mp hg' with h2 | h2 <;> simp [h2]
        · rcases List.mem_cons.mp hg' with rfl | hgs
          · exact Or.inr ⟨a :: g', by simp [h], by simp [hcg']⟩
          · exact Or.inr ⟨g', by simp [h, hgs], hcg'⟩

/-! ## Helper lemmas: address parsing -/

theorem parseOctetChars_some (g : List Char) (v : Nat) (h : parseOctetChars g = some v) :
    g ≠ [] ∧ g.all Char.isDigit = true ∧ v = digitsToNat g ∧ v ≤ 255 := by
  unfold parseOctetChars at h
  split_ifs at h with h1 h2 h3 h4 h5
  have hv : digitsToNat g = v := by injection h
  exact ⟨h1, by simpa using h2, hv.symm, by omega⟩

theorem parseIPv4core_parts (l : List Char) (q : Nat × Nat × Nat × Nat)
    (h : parseIPv4core l = some q) :
    ∃ g1 g2 g3 g4, splitListChar '.' l = [g1, g2, g3, g4] ∧
      parseOctetChars g1 = some q.1 ∧ parseOctetChars g2 = some q.2.1 ∧
      parseOctetChars g3 = some q.2.2.1 ∧ parseOctetChars g4 = some q.2.2.2 := by
  unfold parseIPv4core at h
  split at h
  case _ g1 g2 g3 g4 heq =>
    split at h
    case _ a b c d h1 h2 h3 h4 =>
      injection h with h'
      subst h'
      exact ⟨g1, g2, g3, g4, heq, h1, h2, h3, h4⟩
    case _ => exact absurd h (by simp)
  case _ => exact absurd h (by simp)

theorem parseIPv4core_chars (l : List Char) (q : Nat × Nat × Nat × Nat)
    (h : parseIPv4core l = some q) :
    ∀ c ∈ l, c = '.' ∨ c.isDigit = true := by
  intro c hc
  obtain ⟨g1, g2, g3, g4, hs, h1, h2, h3, h4⟩ := parseIPv4core_parts l q h
  rcases mem_of_splitListChar '.' l c hc with hdot | ⟨g, hg, hcg⟩
  · exact Or.inl hdot
  · right
    rw [hs] at hg
    have hone : g = g1 ∨ g = g2 ∨ g = g3 ∨ g = g4 := by simpa using hg
    rcases hone with rfl | rfl | rfl | rfl
    · exact List.all_eq_true.mp (parseOctetChars_some _ _ h1).2.1 c hcg
    · exact List.all_eq_true.mp (parseOctetChars_some _ _ h2).2.1 c hcg
    · exact List.all_eq_true.mp (parseOctetChars_some _ _ h3).2.1 c hcg
    · exact List.all_eq_true.mp (parseOctetChars_some _ _ h4).2.1 c hcg

theorem mem_splitListChar_subset (sep : Char) (l : List Char) :
    ∀ g ∈ splitListChar sep l, ∀ c ∈ g, c ∈ l := by
  induction l with
  | nil =>
    intro g hg c hc
    simp [splitListChar] at hg
    subst hg
    simp at hc
  | cons a t ih =>
    intro g hg c hc
    obtain ⟨g0, gs, hg0⟩ : ∃ g0 gs, splitListChar sep t = g0 :: gs := by
      cases hr : splitListChar sep t with
      | nil => exact absurd hr (splitListChar_ne_nil sep t)
      | cons x xs => exact ⟨x, xs, rfl⟩
    rw [splitListChar] at hg
    rw [hg0] at hg
    by_cases ha : a = sep
    · simp only [ha, if_true, if_pos] at hg
      rcases List.mem_cons.mp hg with rfl | hg'
      · simp at hc
      · exact List.mem_cons_of_mem a (ih g (by rw [hg0]; exact hg') c hc)
    · simp only [ha, if_neg, if_false] at hg
      rcases List.mem_cons.mp hg with rfl | hg'
      · rcases List.mem_cons.mp hc with rfl | hc'
        · simp
        · exact List.mem_cons_of_mem a (ih g0 (by rw [hg0]; simp) c hc')
      · exact List.mem_cons_of_mem a (ih g (by rw [hg0]; exact List.mem_cons_of_mem g0 hg') c hc)

theorem parseIPv6addr_parts_ge (l : List Char) (h : parseIPv6addr l = true) :
    3 ≤ (splitListChar ':' l).length := by
  by_contra hlt
  push_neg at hlt
  unfold parseIPv6addr at h
  split at h
  · exact absurd h (by simp)
  · rw [if_pos hlt] at h
    exact absurd h (by simp)

theorem parseIPv6_has_colon (s : String) (h : parseIPv6 s = true) : ':' ∈ s.data := by
  unfold parseIPv6 at h
  split at h
  · exact absurd h (by simp)
  · have key : ∀ addr, addr ∈ splitListChar '%' s.data → parseIPv6addr addr = true →
        ':' ∈ s.data := by
      intro addr hmem haddr
      have hge := parseIPv6addr_parts_ge addr haddr
      rw [length_splitListChar] at hge
      have hc : ':' ∈ addr := by
        have : 0 < addr.count ':' := by omega
        exact List.count_pos_iff.mp this
      exact mem_splitListChar_subset '%' s.data addr hmem ':' hc
    split at h
    case _ addr heq => exact key addr (by rw [heq]; simp) h
    case _ addr zone heq =>
      have haddr : parseIPv6addr addr = true := by
        have h' : (!zone.isEmpty) = true ∧ parseIPv6addr addr = true := by simpa using h
        exact h'.2
      exact key addr (by rw [heq]; simp) haddr
    case _ => exact absurd h (by simp)

theorem v4_v6_exclusive (s : String) (q : Nat × Nat × Nat × Nat)
    (h4 : parseIPv4core s.data = some q) : parseIPv6 s = false := by
  by_contra h6
  have h6' : parseIPv6 s = true := by
    cases hb : parseIPv6 s
    · exact absurd hb h6
    · rfl
  have hc := parseIPv6_has_colon s h6'
  rcases parseIPv4core_chars s.data q h4 ':' hc with h | h
  · exact absurd h (by decide)
  · exact absurd h (by decide)

theorem ip_address_parse_of_v4 (s : String) (q : Nat × Nat × Nat × Nat)
    (h : parseIPv4core s.data = some q) : ip_address_parse s = some (.v4 q) := by
  unfold ip_address_parse
  rw [h]

theorem ip_address_parse_of_v6 (s : String) (h : parseIPv6 s = true) :
    ip_address_parse s = some .v6 := by
  unfold ip_address_parse
  cases hp : parseIPv4core s.data with
  | some q => rw [v4_v6_exclusive s q hp] at h; exact absurd h (by simp)
  | none => rw [if_pos h]

theorem ipv4NetworkOfString_append24 (s : String) (q : Nat × Nat × Nat × Nat)
    (h : parseIPv4core s.data = some q) :
    ipv4NetworkOfString (s ++ "/24") = some (ipv4ToInt q / 256 * 256, 24) := by
  have hnos : '/' ∉ s.data := by
    intro hm
    rcases parseIPv4core_chars s.data q h '/' hm with h' | h'
    · exact absurd h' (by decide)
    · exact absurd h' (by decide)
  unfold ipv4NetworkOfString
  rw [data_append]
  rw [show ("/24" : String).data = '/' :: ['2', '4'] from rfl]
  rw [splitListChar_append '/' s.data ['2', '4'] hnos]
  rw [show splitListChar '/' ['2', '4'] = [['2', '4']] from rfl]
  simp only [h, show parseNetmaskArg ['2', '4'] = some 24 from rfl]
  norm_num

theorem mask24_ipv4 (a b c d : Nat) (hd : d ≤ 255) :
    ipv4ToInt (a, b, c, d) / 256 * 256 = ipv4ToInt (a, b, c, 0) := by
  show (((a * 256 + b) * 256 + c) * 256 + d) / 256 * 256 =
    ((a * 256 + b) * 256 + c) * 256 + 0
  omega

theorem v4IntToDotted_octets (a b c : Nat) (ha : a ≤ 255) (hb : b ≤ 255) (hc : c ≤ 255) :
    v4IntToDotted (ipv4ToInt (a, b, c, 0)) =
      toString a ++ "." ++ toString b ++ "." ++ toString c ++ "." ++ toString 0 := by
  show toString ((((a * 256 + b) * 256 + c) * 256 + 0) / 16777216 % 256) ++ "." ++
      toString ((((a * 256 + b) * 256 + c) * 256 + 0) / 65536 % 256) ++ "." ++
      toString ((((a * 256 + b) * 256 + c) * 256 + 0) / 256 % 256) ++ "." ++
      toString ((((a * 256 + b) * 256 + c) * 256 + 0) % 256) =
    toString a ++ "." ++ toString b ++ "." ++ toString c ++ "." ++ toString 0
  have h1 : (((a * 256 + b) * 256 + c) * 256 + 0) / 16777216 % 256 = a := by omega
  have h2 : (((a * 256 + b) * 256 + c) * 256 + 0) / 65536 % 256 = b := by omega
  have h3 : (((a * 256 + b) * 256 + c) * 256 + 0) / 256 % 256 = c := by omega
  have h4 : (((a * 256 + b) * 256 + c) * 256 + 0) % 256 = 0 := by omega
  rw [h1, h2, h3, h4]

/-- C6: for every syntactically valid IPv4 address, `infer_segment_24`
returns the canonical CIDR string of the containing /24 network — the
network whose 32-bit value is the address with its last octet zeroed,
rendered as dotted quad plus `/24`; for every valid IPv6 address it
returns the literal string `"IPv6"`. -/
theorem C6_infer_segment (s : String) :
    (∀ a b c d, parseIPv4core s.data = some (a, b, c, d) →
        infer_segment_24 s = some (v4netToString (ipv4ToInt (a, b, c, 0), 24)) ∧
        v4netToString (ipv4ToInt (a, b, c, 0), 24) =
          toString a ++ "." ++ toString b ++ "." ++ toString c ++ "." ++ toString 0 ++
            "/" ++ toString 24) ∧
    (parseIPv6 s = true → infer_segment_24 s = some "IPv6") := by
  constructor
  · intro a b c d h
    obtain ⟨g1, g2, g3, g4, hs, h1, h2, h3, h4⟩ := parseIPv4core_parts _ _ h
    have ha : a ≤ 255 := (parseOctetChars_some _ _ h1).2.2.2
    have hb : b ≤ 255 := (parseOctetChars_some _ _ h2).2.2.2
    have hc : c ≤ 255 := (parseOctetChars_some _ _ h3).2.2.2
    have hd : d ≤ 255 := (parseOctetChars_some _ _ h4).2.2.2
    constructor
    · unfold infer_segment_24
      rw [ip_address_parse_of_v4 s (a, b, c, d) h]
      rw [ipv4NetworkOfString_append24 s (a, b, c, d) h]
      rw [mask24_ipv4 a b c d hd]
      rfl
    · show v4IntToDotted (ipv4ToInt (a, b, c, 0)) ++ "/" ++ toString 24 = _
      rw [v4IntToDotted_octets a b c ha hb hc]
  · intro h
    unfold infer_segment_24
    rw [ip_address_parse_of_v6 s h]

/-- Witness for C6 at the spec's own examples: `192.168.56.10` maps to
`192.168.56.0/24` and the IPv6 literal `::1` maps to `"IPv6"`. -/
theorem C6_infer_segment_witness :
    infer_segment_24 "192.168.56.10" = some "192.168.56.0/24" ∧
    infer_segment_24 "::1" = some "IPv6" := by
  constructor
  · have h := (C6_infer_segment "192.168.56.10").1 192 168 56 10 (by decide)
    rw [h.1, h.2]
    rfl
  · exact (C6_infer_segment "::1").2 (by decide)

/-! ## C1: the probe boundary -/

/-- C1 (counterexample): the claim says a missing ping binary and expiry of
the 15-second timeout are reported as `ERROR`; in the source
`subprocess.run(..., timeout=15, check=False)` raises `TimeoutExpired` and
`FileNotFoundError` uncaught, so `run_ping` propagates them as exceptions
instead of returning a pair. -/
theorem C1_run_ping_counterexample :
    run_ping SubprocessResult.timeoutExpired = Except.error PingExn.timeoutExpired ∧
    run_ping SubprocessResult.fileNotFound = Except.error PingExn.fileNotFound :=
  ⟨rfl, rfl⟩

/-- C1 (amended): whenever the ping subprocess runs to completion — any
exit code, absorbed by `check=False` — `run_ping` returns a
`(status, output)` pair with status `OK` exactly for exit code 0 and
`ERROR` otherwise; but expiry of the 15-second timeout or a missing ping
binary raises (`TimeoutExpired` / `FileNotFoundError`) past the probe
boundary. -/
theorem C1_run_ping_amended :
    (∀ (rc : Int) (out err : String), ∃ p : String × String,
        run_ping (SubprocessResult.completed rc out err) = Except.ok p ∧
        (p.1 = "OK" ∨ p.1 = "ERROR") ∧ (p.1 = "OK" ↔ rc = 0)) ∧
    run_ping SubprocessResult.timeoutExpired = Except.error PingExn.timeoutExpired ∧
    run_ping SubprocessResult.fileNotFound = Except.error PingExn.fileNotFound := by
  refine ⟨fun rc out err => ?_, rfl, rfl⟩
  by_cases h : rc = 0
  · refine ⟨("OK", pyStrip (out ++ err)), ?_, Or.inl rfl, ?_⟩
    · simp [run_ping, h]
    · simp [h]
  · refine ⟨("ERROR",
      if pyStrip (out ++ err) ≠ "" then pyStrip (out ++ err)
      else "Ping fallido con código " ++ toString rc), ?_, Or.inr rfl, ?_⟩
    · simp [run_ping, h]
    · constructor
      · intro hh
        have hne : ("ERROR" : String) ≠ "OK" := by decide
        exact absurd hh hne
      · intro hh
        exact absurd hh h

/-! ## C3: the host-type enumeration -/

/-- C3 (counterexample): the enumeration in the source is the Spanish list
`NOTEBOOK, DESKTOP, SERVER, IMPRESORA, ROUTER, OTRO`, so `updateDetails`
with host type `PRINTER` fails with the unknown-host-type error even on an
existing address, where the claim says it succeeds. -/
theorem C3_host_type_counterexample :
    get_ip_row "10.0.0.1" [recA] = some recA ∧
    update_host_details "10.0.0.1" "Name" "PRINTER" "Loc" "Notes" "Al" [recA] =
      ([recA], false, "Tipo de host inválido") := by
  constructor
  · rfl
  · rfl

/-- C3 (amended): `update_host_details` fails with the unknown-host-type
error if and only if the supplied host type is non-empty and not a member
of `HOST_TYPE_OPTIONS = [NOTEBOOK, DESKTOP, SERVER, IMPRESORA, ROUTER,
OTRO]`; in particular on an existing address the members `IMPRESORA` and
`OTRO` are accepted. -/
theorem C3_host_type_amended :
    (∀ ip hn ht loc nt al db,
        update_host_details ip hn ht loc nt al db = (db, false, "Tipo de host inválido") ↔
          (ht ≠ "" ∧ ht ∉ HOST_TYPE_OPTIONS)) ∧
    (∀ ip hn loc nt al db, (get_ip_row ip db).isSome = true →
        (update_host_details ip hn "IMPRESORA" loc nt al db).2.1 = true ∧
        (update_host_details ip hn "OTRO" loc nt al db).2.1 = true) := by
  constructor
  · intro ip hn ht loc nt al db
    constructor
    · intro h
      by_contra hc
      rw [update_host_details, if_neg hc] at h
      by_cases hf : (db.find? (fun r => r.ip_address == ip)).isNone = true
      · rw [if_pos hf] at h
        have h' := congrArg (fun t => t.2.2) h
        simp only [] at h'
        exact absurd h' (by decide)
      · rw [if_neg hf] at h
        have h' := congrArg (fun t => t.2.1) h
        simp at h'
    · intro hcond
      rw [update_host_details, if_pos hcond]
  · intro ip hn loc nt al db hsome
    have hf : ¬((db.find? (fun r => r.ip_address == ip)).isNone = true) := by
      cases hx : db.find? (fun r => r.ip_address == ip) with
      | none =>
        rw [get_ip_row, hx] at hsome
        simp at hsome
      | some r => simp [hx]
    constructor
    · rw [update_host_details, if_neg (by decide), if_neg hf]
    · rw [update_host_details, if_neg (by decide), if_neg hf]

/-- Witness for the C3 amended theorem at concrete inputs. -/
theorem C3_host_type_amended_witness :
    update_host_details "10.0.0.1" "N" "BADTYPE" "L" "X" "A" [recA] =
      ([recA], false, "Tipo de host inválido") ∧
    (update_host_details "10.0.0.1" "N" "IMPRESORA" "L" "X" "A" [recA]).2.1 = true ∧
    (update_host_details "10.0.0.1" "N" "OTRO" "L" "X" "A" [recA]).2.1 = true := by
  refine ⟨(C3_host_type_amended.1 "10.0.0.1" "N" "BADTYPE" "L" "X" "A" [recA]).mpr
      (by decide), ?_, ?_⟩
  · exact (C3_host_type_amended.2 "10.0.0.1" "N" "L" "X" "A" [recA] (by decide)).1
  · exact (C3_host_type_amended.2 "10.0.0.1" "N" "L" "X" "A" [recA] (by decide)).2

/-! ## Helper lemmas: the registry store -/

theorem find?_map_of_pred (u : HostRecord → HostRecord) (p : HostRecord → Bool)
    (db : List HostRecord) (hp : ∀ x, p (u x) = p x) :
    (db.map u).find? p = (db.find? p).map u := by
  induction db with
  | nil => rfl
  | cons a l ih =>
    rw [List.map_cons]
    cases hpa : p a
    · have h1 : ¬(p (u a) = true) := by simp [(hp a).trans hpa]
      have h2 : ¬(p a = true) := by simp [hpa]
      rw [List.find?_cons_of_neg _ h1, List.find?_cons_of_neg _ h2]
      exact ih
    · have h1 : p (u a) = true := (hp a).trans hpa
      rw [List.find?_cons_of_pos _ h1, List.find?_cons_of_pos _ hpa]
      rfl

theorem update_host_details_success (ip hn ht loc nt al : String) (db : List HostRecord)
    (r : HostRecord) (hht : ¬(ht ≠ "" ∧ ht ∉ HOST_TYPE_OPTIONS))
    (hr : get_ip_row ip db = some r) :
    update_host_details ip hn ht loc nt al db =
      (db.map (fun x =>
        if x.ip_address = ip then
          { x with «alias» := strOrNone al, host_name := strOrNone hn,
                   host_type := strOrNone ht, location := strOrNone loc,
                   notes := strOrNone nt }
        else x), true, "Host actualizado") ∧
    get_ip_row ip (update_host_details ip hn ht loc nt al db).1 =
      some { r with «alias» := strOrNone al, host_name := strOrNone hn,
                    host_type := strOrNone ht, location := strOrNone loc,
                    notes := strOrNone nt } := by
  rw [get_ip_row] at hr
  have hfne : ¬((db.find? (fun x => x.ip_address == ip)).isNone = true) := by
    rw [hr]
    simp
  have heq : update_host_details ip hn ht loc nt al db =
      (db.map (fun x =>
        if x.ip_address = ip then
          { x with «alias» := strOrNone al, host_name := strOrNone hn,
                   host_type := strOrNone ht, location := strOrNone loc,
                   notes := strOrNone nt }
        else x), true, "Host actualizado") := by
    rw [update_host_details, if_neg hht, if_neg hfne]
  refine ⟨heq, ?_⟩
  have heq1 : (update_host_details ip hn ht loc nt al db).1 =
      db.map (fun x =>
        if x.ip_address = ip then
          { x with «alias» := strOrNone al, host_name := strOrNone hn,
                   host_type := strOrNone ht, location := strOrNone loc,
                   notes := strOrNone nt }
        else x) := by
    rw [heq]
  have hpres : ∀ x : HostRecord,
      (((if x.ip_address = ip then
          { x with «alias» := strOrNone al, host_name := strOrNone hn,
                   host_type := strOrNone ht, location := strOrNone loc,
                   notes := strOrNone nt }
        else x) : HostRecord).ip_address == ip) = (x.ip_address == ip) := by
    intro x
    by_cases hx : x.ip_address = ip
    · simp [hx]
    · simp [hx]
  rw [get_ip_row, heq1, find?_map_of_pred _ _ db hpres, hr]
  have hrip : r.ip_address = ip := by
    have h' := List.find?_some hr
    simpa using h'
  simp [hrip]

/-- C7: a successful `update_host_details` overwrites exactly the five
metadata fields (alias, host name, host type, location, notes), each one
trimmed with the empty string stored as null (`strOrNone`), leaves
`ip_address` and every other column unchanged, and a subsequent
`get_ip_row` lookup reflects every updated field exactly. -/
theorem C7_update_details (ip hn ht loc nt al : String) (db : List HostRecord)
    (r : HostRecord) (hht : ht = "" ∨ ht ∈ HOST_TYPE_OPTIONS)
    (hr : get_ip_row ip db = some r) :
    ∃ db', update_host_details ip hn ht loc nt al db = (db', true, "Host actualizado") ∧
      get_ip_row ip db' =
        some { r with «alias» := strOrNone al, host_name := strOrNone hn,
                      host_type := strOrNone ht, location := strOrNone loc,
                      notes := strOrNone nt } := by
  have hht' : ¬(ht ≠ "" ∧ ht ∉ HOST_TYPE_OPTIONS) := by
    rcases hht with h | h
    · intro hc
      exact hc.1 h
    · intro hc
      exact hc.2 h
  obtain ⟨h1, h2⟩ := update_host_details_success ip hn ht loc nt al db r hht' hr
  rw [h1] at h2
  exact ⟨_, h1, h2⟩

/-- Witness for C7: updating the registered address `10.0.0.1` with
trimmed-and-nulled fields, then looking it up. -/
theorem C7_update_details_witness :
    ∃ db', update_host_details "10.0.0.1" " PABLO RIVEROS " "NOTEBOOK" " INF " "" " PB "
        [recA] = (db', true, "Host actualizado") ∧
      get_ip_row "10.0.0.1" db' =
        some { recA with «alias» := some "PB", host_name := some "PABLO RIVEROS",
                         host_type := some "NOTEBOOK", location := some "INF",
                         notes := none } := by
  obtain ⟨db', h1, h2⟩ := C7_update_details "10.0.0.1" " PABLO RIVEROS " "NOTEBOOK" " INF "
    "" " PB " [recA] recA (Or.inr (by decide)) (by decide)
  refine ⟨db', h1, ?_⟩
  rw [h2]
  decide

theorem register_ip_invalid (ip : String) (al : Option String) (now : String)
    (db : List HostRecord) (hv : is_valid_ip ip = false) :
    register_ip ip al now db = (db, false, "La IP no es válida") := by
  have hv' : is_valid_ip (pyStrip ip) = false := by
    unfold is_valid_ip at hv ⊢
    rw [pyStrip_idem]
    exact hv
  rw [register_ip, if_pos (by simp [hv'])]

theorem register_ip_dup (ip : String) (al : Option String) (now : String)
    (db : List HostRecord) (hv : is_valid_ip ip = true)
    (hdup : (db.find? (fun r => r.ip_address == pyStrip ip)).isSome = true) :
    register_ip ip al now db = (db, false, "La IP ya estaba registrada") := by
  have hv' : is_valid_ip (pyStrip ip) = true := by
    unfold is_valid_ip at hv ⊢
    rw [pyStrip_idem]
    exact hv
  rw [register_ip, if_neg (by simp [hv']), if_pos hdup]

theorem register_ip_insert (ip : String) (al : Option String) (now : String)
    (db : List HostRecord) (hv : is_valid_ip ip = true)
    (hdup : db.find? (fun r => r.ip_address == pyStrip ip) = none) :
    register_ip ip al now db =
      (db ++ [{ id := freshId db, ip_address := pyStrip ip, «alias» := aliasStored al,
                host_name := none, host_type := none, location := none, notes := none,
                hostname := none, last_ping_at := none, last_status := none,
                last_output := none, created_at := now }],
       true, "IP registrada correctamente") := by
  have hv' : is_valid_ip (pyStrip ip) = true := by
    unfold is_valid_ip at hv ⊢
    rw [pyStrip_idem]
    exact hv
  rw [register_ip, if_neg (by simp [hv']), if_neg (by simp [hdup])]

/-! ## C4: registration -/

/-- C4 (counterexample): the claim says a successful registration leaves
every optional field empty/null, but `register_ip` stores the supplied
alias: registering `1.2.3.4` with alias `local` stores `alias = "local"`,
which is neither empty nor null. -/
theorem C4_register_counterexample :
    (register_ip "1.2.3.4" (some "local") "2024-01-01T00:00:00+00:00" []).2.1 = true ∧
    ((register_ip "1.2.3.4" (some "local") "2024-01-01T00:00:00+00:00" []).1.getD 0
        default).«alias» = some "local" := by
  constructor
  · rfl
  · rfl

/-- C4 (amended): `register_ip` fails with the invalid-address message when
the validator rejects the address; fails with the duplicate message when a
record for the trimmed address already exists, leaving the table unchanged;
otherwise appends exactly one new record whose `created_at` is the
`_now_iso()` timestamp, whose alias is the trimmed supplied alias (null
when the alias is missing or empty), and whose other optional fields are
all null. -/
theorem C4_register_amended (ip : String) (al : Option String) (now : String)
    (db : List HostRecord) :
    (is_valid_ip ip = false → register_ip ip al now db = (db, false, "La IP no es válida")) ∧
    (is_valid_ip ip = true →
      (db.find? (fun r => r.ip_address == pyStrip ip)).isSome = true →
      register_ip ip al now db = (db, false, "La IP ya estaba registrada")) ∧
    (is_valid_ip ip = true →
      db.find? (fun r => r.ip_address == pyStrip ip) = none →
      register_ip ip al now db =
        (db ++ [{ id := freshId db, ip_address := pyStrip ip, «alias» := aliasStored al,
                  host_name := none, host_type := none, location := none, notes := none,
                  hostname := none, last_ping_at := none, last_status := none,
                  last_output := none, created_at := now }],
         true, "IP registrada correctamente")) :=
  ⟨register_ip_invalid ip al now db,
   register_ip_dup ip al now db,
   register_ip_insert ip al now db⟩

/-- Witness for C4 at concrete inputs: an invalid literal is rejected, a
duplicate of `10.0.0.1` (present as `recA`) is rejected without change, and
a fresh `10.0.0.9` is appended. -/
theorem C4_register_amended_witness :
    register_ip "not-an-ip" (some "x") "T0" [recA] = ([recA], false, "La IP no es válida") ∧
    register_ip " 10.0.0.1 " (some "x") "T0" [recA] =
      ([recA], false, "La IP ya estaba registrada") ∧
    register_ip "10.0.0.9" none "T0" [recA] =
      ([recA, { id := 2, ip_address := "10.0.0.9", «alias» := none,
                host_name := none, host_type := none, location := none, notes := none,
                hostname := none, last_ping_at := none, last_status := none,
                last_output := none, created_at := "T0" }],
       true, "IP registrada correctamente") := by
  refine ⟨(C4_register_amended "not-an-ip" (some "x") "T0" [recA]).1 (by decide), ?_, ?_⟩
  · exact (C4_register_amended " 10.0.0.1 " (some "x") "T0" [recA]).2.1 (by decide) (by decide)
  · have h := (C4_register_amended "10.0.0.9" none "T0" [recA]).2.2 (by decide) (by decide)
    rw [h]
    decide

/-! ## C10: whitespace-only alias -/

/-- C10: `register_ip` and `update_host_details` normalize a
whitespace-only alias differently: for a non-empty alias that trims to the
empty string, registration stores the empty string (it applies `strip()`
only when the alias is truthy and keeps the stripped result), while a
successful details update stores null for it (`strip() or None`). -/
theorem C10_alias_asymmetry (a : String) (ha : a ≠ "") (hs : pyStrip a = "") :
    (∀ ip now db, is_valid_ip ip = true →
        db.find? (fun r => r.ip_address == pyStrip ip) = none →
        register_ip ip (some a) now db =
          (db ++ [{ id := freshId db, ip_address := pyStrip ip, «alias» := some "",
                    host_name := none, host_type := none, location := none, notes := none,
                    hostname := none, last_ping_at := none, last_status := none,
                    last_output := none, created_at := now }],
           true, "IP registrada correctamente")) ∧
    (∀ ip hn ht loc nt db r, (ht = "" ∨ ht ∈ HOST_TYPE_OPTIONS) →
        get_ip_row ip db = some r →
        ∃ db', update_host_details ip hn ht loc nt a db = (db', true, "Host actualizado") ∧
          get_ip_row ip db' =
            some { r with «alias» := none, host_name := strOrNone hn,
                          host_type := strOrNone ht, location := strOrNone loc,
                          notes := strOrNone nt }) := by
  have hstored : aliasStored (some a) = some "" := by
    rw [aliasStored, if_neg ha, hs]
  have hnulled : strOrNone a = none := by
    rw [strOrNone, if_pos hs]
  constructor
  · intro ip now db hv hdup
    rw [register_ip_insert ip (some a) now db hv hdup, hstored]
  · intro ip hn ht loc nt db r hht hr
    have hht' : ¬(ht ≠ "" ∧ ht ∉ HOST_TYPE_OPTIONS) := by
      rcases hht with h | h
      · intro hc
        exact hc.1 h
      · intro hc
        exact hc.2 h
    obtain ⟨h1, h2⟩ := update_host_details_success ip hn ht loc nt a db r hht' hr
    rw [h1] at h2
    refine ⟨_, h1, ?_⟩
    rw [← hnulled]
    exact h2

/-- Witness for C10 with the one-space alias `" "` on concrete stores. -/
theorem C10_alias_asymmetry_witness :
    register_ip "10.0.0.9" (some " ") "T0" [] =
      ([{ id := 1, ip_address := "10.0.0.9", «alias» := some "",
          host_name := none, host_type := none, location := none, notes := none,
          hostname := none, last_ping_at := none, last_status := none,
          last_output := none, created_at := "T0" }],
       true, "IP registrada correctamente") ∧
    (∃ db', update_host_details "10.0.0.1" "HN" "OTRO" "L" "N" " " [recA] =
        (db', true, "Host actualizado") ∧
      get_ip_row "10.0.0.1" db' =
        some { recA with «alias» := none, host_name := some "HN",
                         host_type := some "OTRO", location := some "L",
                         notes := some "N" }) := by
  have h := C10_alias_asymmetry " " (by decide) (by decide)
  constructor
  · have h1 := h.1 "10.0.0.9" "T0" [] (by decide) (by decide)
    rw [h1]
    decide
  · obtain ⟨db', h1, h2⟩ := h.2 "10.0.0.1" "HN" "OTRO" "L" "N" [recA] recA
      (Or.inr (by decide)) (by decide)
    refine ⟨db', h1, ?_⟩
    rw [h2]
    decide

/-! ## Helper lemmas: the segment filter -/

theorem contains_eq_true_iff (l : List Char) (c : Char) : l.contains c = true ↔ c ∈ l :=
  List.elem_iff

theorem endsWithChars_eq_suffix (l pat : List Char) :
    endsWithChars l pat = true ↔ pat <:+ l := by
  unfold endsWithChars
  rw [decide_eq_true_iff]
  constructor
  · intro h
    rw [← h]
    exact List.drop_suffix _ _
  · rintro ⟨t, rfl⟩
    rw [List.length_append]
    have hlen : t.length + pat.length - pat.length = t.length := by omega
    rw [hlen, List.drop_left]

theorem isPySpace_of_digit (c : Char) (h : c.isDigit = true) : isPySpace c = false := by
  unfold isPySpace
  by_cases h1 : c = ' '
  · subst h1; exact absurd h (by decide)
  by_cases h2 : c = '\t'
  · subst h2; exact absurd h (by decide)
  by_cases h3 : c = '\n'
  · subst h3; exact absurd h (by decide)
  by_cases h4 : c = '\r'
  · subst h4; exact absurd h (by decide)
  by_cases h5 : c = '\x0b'
  · subst h5; exact absurd h (by decide)
  by_cases h6 : c = '\x0c'
  · subst h6; exact absurd h (by decide)
  simp [h1, h2, h3, h4, h5, h6]

theorem third_octet_shortcut_fires (g rest : List Char) (hg : g ≠ [])
    (hdig : g.all Char.isDigit = true) (hle : digitsToNat g ≤ 255)
    (hnd : ('.') ∉ rest) (hsuf : ['/', '2', '4'] <:+ ('/' :: rest)) :
    third_octet_shortcut (g ++ '/' :: rest) = some (digitsToNat g) := by
  have hgs : '/' ∉ g := by
    intro hm
    have := List.all_eq_true.mp hdig '/' hm
    exact absurd this (by decide)
  have hgd : ('.') ∉ g := by
    intro hm
    have := List.all_eq_true.mp hdig '.' hm
    exact absurd this (by decide)
  have hsuf2 : endsWithChars (g ++ '/' :: rest) ['/', '2', '4'] = true := by
    rw [endsWithChars_eq_suffix]
    exact hsuf.trans (List.suffix_append g ('/' :: rest))
  have hnotc : (g ++ '/' :: rest).contains '.' = false := by
    cases hx : (g ++ '/' :: rest).contains '.'
    · rfl
    · exfalso
      have hmem := (contains_eq_true_iff _ _).mp hx
      rcases List.mem_append.mp hmem with hmg | hmr
      · exact hgd hmg
      · rcases List.mem_cons.mp hmr with hh | hh
        · exact absurd hh (by decide)
        · exact hnd hh
  have hhead : (splitListChar '/' (g ++ '/' :: rest)).headD [] = g := by
    rw [splitListChar_append '/' g rest hgs]
    rfl
  rw [third_octet_shortcut, if_pos (by rw [hsuf2, hnotc]; rfl), hhead,
    if_pos (by simp [hg, hdig, hle])]

theorem dot_of_ipv4core (a : List Char) (q : Nat × Nat × Nat × Nat)
    (h : parseIPv4core a = some q) : ('.') ∈ a := by
  obtain ⟨g1, g2, g3, g4, hs, h1, h2, h3, h4⟩ := parseIPv4core_parts a q h
  have hlen := length_splitListChar '.' a
  rw [hs] at hlen
  simp at hlen
  have hcount : 0 < a.count '.' := by omega
  exact List.count_pos_iff.mp hcount

theorem ipv4NetworkOfString_dot (s : String) (np : Nat × Nat)
    (h : ipv4NetworkOfString s = some np) : ('.') ∈ s.data := by
  unfold ipv4NetworkOfString at h
  split at h
  case _ a heq =>
    cases hp : parseIPv4core a with
    | none => rw [hp] at h; simp at h
    | some q =>
      exact mem_splitListChar_subset '/' s.data a (by rw [heq]; simp) '.'
        (dot_of_ipv4core a q hp)
  case _ a m heq =>
    cases hp : parseIPv4core a with
    | none => rw [hp] at h; simp at h
    | some q =>
      exact mem_splitListChar_subset '/' s.data a (by rw [heq]; simp) '.'
        (dot_of_ipv4core a q hp)
  case _ => exact absurd h (by simp)

theorem third_octet_shortcut_none_of_dot (l : List Char) (h : ('.') ∈ l) :
    third_octet_shortcut l = none := by
  have hc : l.contains '.' = true := (contains_eq_true_iff l '.').mpr h
  rw [third_octet_shortcut, if_neg]
  rw [hc]
  simp

/-! ## C5: filter normalization -/

/-- C5 (counterexample): `5/6/24` is neither a bare decimal followed by
`/24` (in the spec's sense) nor a parsable IPv4 network, so the claim says
`normalize_segment_filter` returns null on it; the source returns
`THIRD_OCTET:5`, because its shortcut only checks that the input ends in
`/24`, has no dot, and that the part before the first `/` is a decimal in
`[0, 255]`. -/
theorem C5_normalize_counterexample :
    normalize_segment_filter (some "5/6/24") = some "THIRD_OCTET:5" ∧
    spec_bare_third_octet_input "5/6/24" = false ∧
    ipv4NetworkOfString "5/6/24" = none := by
  refine ⟨by decide, by decide, by decide⟩

/-- C5 (amended): `normalize_segment_filter` returns `THIRD_OCTET:<n>` for
every whitespace-free input of the form `<digits>/<rest>` that ends in
`/24`, contains no dot, and whose leading digit group has value `n` at most
255 (this includes every bare decimal `n/24`, but also inputs such as
`5/6/24`); returns the canonical CIDR string for every input that parses
as an IPv4 network with prefix length exactly 24; and returns null for a
missing or whitespace-only input, and for every remaining input — one on
which the shortcut does not fire and that does not parse as an IPv4
network of prefix length 24. -/
theorem C5_normalize_amended :
    (∀ g rest : List Char, g ≠ [] → g.all Char.isDigit = true → digitsToNat g ≤ 255 →
        ('.') ∉ rest → (∀ c ∈ rest, isPySpace c = false) →
        ['/', '2', '4'] <:+ ('/' :: rest) →
        normalize_segment_filter (some (String.mk (g ++ '/' :: rest))) =
          some ("THIRD_OCTET:" ++ toString (digitsToNat g))) ∧
    (∀ (s : String) (np : Nat × Nat), pyStrip s = s → ipv4NetworkOfString s = some np →
        np.2 = 24 →
        normalize_segment_filter (some s) = some (v4netToString np)) ∧
    (normalize_segment_filter none = none) ∧
    (∀ s : String, pyStrip s = "" → normalize_segment_filter (some s) = none) ∧
    (∀ s : String, pyStrip s = s → s ≠ "" → third_octet_shortcut s.data = none →
        (∀ np : Nat × Nat, ipv4NetworkOfString s = some np → np.2 ≠ 24) →
        normalize_segment_filter (some s) = none) := by
  refine ⟨?_, ?_, rfl, ?_, ?_⟩
  · intro g rest hg hdig hle hnd hns hsuf
    have hall : ∀ c ∈ g ++ '/' :: rest, isPySpace c = false := by
      intro c hc
      rcases List.mem_append.mp hc with hcg | hcr
      · exact isPySpace_of_digit c (List.all_eq_true.mp hdig c hcg)
      · rcases List.mem_cons.mp hcr with rfl | hcr'
        · decide
        · exact hns c hcr'
    have hstrip : pyStrip (String.mk (g ++ '/' :: rest)) = String.mk (g ++ '/' :: rest) := by
      rw [pyStrip, stripChars_of_no_space _ hall]
    have hne : String.mk (g ++ '/' :: rest) ≠ "" := by
      intro hrv
      have hd := congrArg String.data hrv
      simp at hd
    rw [normalize_segment_filter]
    rw [if_neg hne, hstrip, if_neg hne]
    rw [show (String.mk (g ++ '/' :: rest)).data = g ++ '/' :: rest from rfl]
    rw [third_octet_shortcut_fires g rest hg hdig hle hnd hsuf]
  · intro s np hstrip hnet h24
    have hne : s ≠ "" := by
      intro hrv
      rw [hrv] at hnet
      simp [show ipv4NetworkOfString "" = none from rfl] at hnet
    have hdot := ipv4NetworkOfString_dot s np hnet
    rw [normalize_segment_filter]
    rw [if_neg hne, hstrip, if_neg hne]
    rw [third_octet_shortcut_none_of_dot s.data hdot]
    rw [hnet]
    show (if np.2 = 24 then some (v4netToString np) else none) = some (v4netToString np)
    rw [if_pos h24]
  · intro s hstrip
    by_cases hse : s = ""
    · rw [normalize_segment_filter, if_pos hse]
    · rw [normalize_segment_filter, if_neg hse, hstrip, if_pos rfl]
  · intro s hstrip hne hshort hnp
    rw [normalize_segment_filter]
    rw [if_neg hne, hstrip, if_neg hne, hshort]
    cases hx : ipv4NetworkOfString s with
    | none => rfl
    | some np =>
      show (if np.2 = 24 then some (v4netToString np) else none) = none
      rw [if_neg (hnp np hx)]

/-- Witness for the C5 amended theorem at the spec's own examples. -/
theorem C5_normalize_amended_witness :
    normalize_segment_filter (some "56/24") = some "THIRD_OCTET:56" ∧
    normalize_segment_filter (some "192.168.59.0/24") = some "192.168.59.0/24" ∧
    normalize_segment_filter (some "") = none ∧
    normalize_segment_filter (some "not-a-filter") = none := by
  refine ⟨?_, ?_, ?_, ?_⟩
  · have h2 := C5_normalize_amended.1 ['5', '6'] ['2', '4'] (by decide) (by decide)
      (by decide) (by decide) (by decide) ⟨[], rfl⟩
    rw [show (some "56/24" : Option String) =
        some (String.mk (['5', '6'] ++ '/' :: ['2', '4'])) from by decide]
    rw [h2]
    decide
  · have h2 := C5_normalize_amended.2.1 "192.168.59.0/24" (3232250624, 24) (by decide)
      (by decide) rfl
    rw [h2]
    decide
  · exact C5_normalize_amended.2.2.2.1 "" (by decide)
  · refine C5_normalize_amended.2.2.2.2 "not-a-filter" (by decide) (by decide) (by decide)
      (fun np hnp => ?_)
    simp [show ipv4NetworkOfString "not-a-filter" = none from by decide] at hnp

/-- Witness for the C1 amended theorem at a concrete completed run. -/
theorem C1_run_ping_amended_witness :
    ∃ p : String × String, run_ping (SubprocessResult.completed 1 "" "") = Except.ok p ∧
      (p.1 = "OK" ∨ p.1 = "ERROR") ∧ (p.1 = "OK" ↔ (1 : Int) = 0) :=
  C1_run_ping_amended.1 1 "" ""

/-! ## Helper lemmas: the probe cycle -/

theorem run_ping_ok_status (r : SubprocessResult) (st out : String)
    (h : run_ping r = Except.ok (st, out)) : st = "OK" ∨ st = "ERROR" := by
  cases r with
  | completed rc o e =>
    rw [run_ping] at h
    by_cases hrc : rc = 0
    · rw [if_pos hrc] at h
      injection h with h'
      injection h' with h1 h2
      exact Or.inl h1.symm
    · rw [if_neg hrc] at h
      injection h with h'
      injection h' with h1 h2
      exact Or.inr h1.symm
  | timeoutExpired => exact absurd h (by simp [run_ping])
  | fileNotFound => exact absurd h (by simp [run_ping])

theorem run_ping_completed_ok (rc : Int) (o e : String) :
    ∃ pr : String × String, run_ping (SubprocessResult.completed rc o e) = Except.ok pr := by
  rw [run_ping]
  by_cases hrc : rc = 0
  · exact ⟨_, by rw [if_pos hrc]⟩
  · exact ⟨_, by rw [if_neg hrc]⟩

theorem probeWritten_after (r r' r'' : HostRecord) (h1 : r' = r ∨ probeWritten r r')
    (h2 : probeWritten r' r'') : probeWritten r r'' := by
  rcases h1 with rfl | h1
  · exact h2
  · obtain ⟨hn, t, st, out, hst, rfl⟩ := h1
    obtain ⟨hn2, t2, st2, out2, hst2, rfl⟩ := h2
    exact ⟨hn2, t2, st2, out2, hst2, by cases r; rfl⟩

theorem probeWritten_before (r r' r'' : HostRecord) (h1 : probeWritten r r')
    (h2 : r'' = r' ∨ probeWritten r' r'') : probeWritten r r'' := by
  rcases h2 with rfl | h2
  · exact h1
  · exact probeWritten_after r r' r'' (Or.inr h1) h2

theorem pingLoop_ok_length (envR : String → Option String)
    (envP : String → SubprocessResult) (clock : Nat → String) :
    ∀ (rows : List (Nat × String)) (k : Nat) (cur db' : List HostRecord),
    pingLoop envR envP clock rows k cur = Except.ok db' → db'.length = cur.length := by
  intro rows
  induction rows with
  | nil =>
    intro k cur db' h
    rw [pingLoop] at h
    injection h with h'
    rw [← h']
  | cons p rest ih =>
    intro k cur db' h
    obtain ⟨rid, ip⟩ := p
    rw [pingLoop] at h
    split at h
    · exact absurd h (by simp)
    · have hlen := ih _ _ _ h
      rw [hlen, List.length_map]

theorem pingLoop_ok_written (envR : String → Option String)
    (envP : String → SubprocessResult) (clock : Nat → String) :
    ∀ (rows : List (Nat × String)) (k : Nat) (cur db' : List HostRecord),
    pingLoop envR envP clock rows k cur = Except.ok db' →
    ∀ i (hi : i < cur.length) (hi' : i < db'.length),
      (db'[i] = cur[i] ∨ probeWritten cur[i] db'[i]) ∧
      (cur[i].id ∈ rows.map Prod.fst → probeWritten cur[i] db'[i]) := by
  intro rows
  induction rows with
  | nil =>
    intro k cur db' h i hi hi'
    rw [pingLoop] at h
    injection h with h'
    subst h'
    exact ⟨Or.inl rfl, by intro hmem; simp at hmem⟩
  | cons p rest ih =>
    intro k cur db' h i hi hi'
    obtain ⟨rid, ip⟩ := p
    rw [pingLoop] at h
    split at h
    · exact absurd h (by simp)
    case _ st out heq =>
      have hi2 : i < (cur.map (fun r =>
          if r.id = rid then
            { r with hostname := envR ip, last_ping_at := some (clock k),
                     last_status := some st, last_output := some out }
          else r)).length := by
        rw [List.length_map]
        exact hi
      have hih := ih (k + 1) _ db' h i hi2 hi'
      have hmapi : (cur.map (fun r =>
          if r.id = rid then
            { r with hostname := envR ip, last_ping_at := some (clock k),
                     last_status := some st, last_output := some out }
          else r))[i] =
          (if cur[i].id = rid then
            { cur[i] with hostname := envR ip, last_ping_at := some (clock k),
                          last_status := some st, last_output := some out }
          else cur[i]) := by
        rw [List.getElem_map]
      rw [hmapi] at hih
      by_cases hid : cur[i].id = rid
      · rw [if_pos hid] at hih
        have hw : probeWritten cur[i]
            { cur[i] with hostname := envR ip, last_ping_at := some (clock k),
                          last_status := some st, last_output := some out } :=
          ⟨envR ip, clock k, st, out, run_ping_ok_status (envP ip) st out heq, rfl⟩
        have hall : probeWritten cur[i] db'[i] :=
          probeWritten_before _ _ _ hw hih.1
        exact ⟨Or.inr hall, fun _ => hall⟩
      · rw [if_neg hid] at hih
        refine ⟨hih.1, fun hmem => ?_⟩
        rw [List.map_cons] at hmem
        rcases List.mem_cons.mp hmem with hh | hh
        · exact absurd hh hid
        · exact hih.2 hh

/-! ## C9: one complete probe cycle -/

/-- C9: if an on-demand probe cycle (`ping_all_registered_ips`) runs to
completion, every record that was registered at the start of the cycle has
been overwritten by exactly one atomic probe write: its `hostname`,
`last_ping_at`, `last_status` and `last_output` are set together by a
single `UPDATE`, with `last_status` one of `OK`/`ERROR` and a non-null
`last_ping_at` (see `probeWritten`); no other field changes. -/
theorem C9_probe_cycle (envR : String → Option String) (envP : String → SubprocessResult)
    (clock : Nat → String) (db db' : List HostRecord)
    (h : ping_all_registered_ips envR envP clock db = Except.ok db') :
    db'.length = db.length ∧
    ∀ i (hi : i < db.length) (hi' : i < db'.length), probeWritten db[i] db'[i] := by
  rw [ping_all_registered_ips] at h
  refine ⟨pingLoop_ok_length envR envP clock _ _ _ _ h, fun i hi hi' => ?_⟩
  refine (pingLoop_ok_written envR envP clock _ _ _ _ h i hi hi').2 ?_
  have hfst : (db.map (fun r => (r.id, r.ip_address))).map Prod.fst =
      db.map (fun r => r.id) := by
    rw [List.map_map]
    rfl
  rw [hfst]
  exact List.mem_map.mpr ⟨db[i], List.getElem_mem hi, rfl⟩

/-- Witness for C9: a two-record store probed with an all-successful ping
environment; both records get the atomic probe write. -/
theorem C9_probe_cycle_witness :
    probeWritten recA { recA with hostname := none, last_ping_at := some "T0",
                                  last_status := some "OK", last_output := some "pong" } ∧
    probeWritten recB { recB with hostname := none, last_ping_at := some "T1",
                                  last_status := some "OK", last_output := some "pong" } := by
  have hrun : ping_all_registered_ips envResolveNone envPingAllOk clkT [recA, recB] =
      Except.ok
        [{ recA with hostname := none, last_ping_at := some "T0",
                     last_status := some "OK", last_output := some "pong" },
         { recB with hostname := none, last_ping_at := some "T1",
                     last_status := some "OK", last_output := some "pong" }] := by
    rfl
  have h := C9_probe_cycle envResolveNone envPingAllOk clkT [recA, recB] _ hrun
  exact ⟨h.2 0 (by decide) (by decide), h.2 1 (by decide) (by decide)⟩

theorem pingLoop_completes (envR : String → Option String)
    (envP : String → SubprocessResult) (clock : Nat → String) :
    ∀ (rows : List (Nat × String)) (k : Nat) (cur : List HostRecord),
    (∀ p ∈ rows, ∃ rc o e, envP p.2 = SubprocessResult.completed rc o e) →
    ∃ db', pingLoop envR envP clock rows k cur = Except.ok db' := by
  intro rows
  induction rows with
  | nil => exact fun k cur _ => ⟨cur, rfl⟩
  | cons p rest ih =>
    intro k cur hcompl
    obtain ⟨rid, ip⟩ := p
    obtain ⟨rc, o, e, hc⟩ := hcompl (rid, ip) (by simp)
    obtain ⟨⟨st, out⟩, hok⟩ := run_ping_completed_ok rc o e
    rw [← hc] at hok
    obtain ⟨db', hdb'⟩ := ih (k + 1)
      (cur.map (fun r =>
        if r.id = rid then
          { r with hostname := envR ip, last_ping_at := some (clock k),
                   last_status := some st, last_output := some out }
        else r))
      (fun q hq => hcompl q (by simp [hq]))
    refine ⟨db', ?_⟩
    rw [pingLoop, hok]
    exact hdb'

theorem pingLoop_no_touch (envR : String → Option String)
    (envP : String → SubprocessResult) (clock : Nat → String) :
    ∀ (rows : List (Nat × String)) (k : Nat) (cur db' : List HostRecord),
    pingLoop envR envP clock rows k cur = Except.ok db' →
    ∀ i (hi : i < cur.length) (hi' : i < db'.length),
      cur[i].id ∉ rows.map Prod.fst → db'[i] = cur[i] := by
  intro rows
  induction rows with
  | nil =>
    intro k cur db' h i hi hi' _
    rw [pingLoop] at h
    injection h with h'
    subst h'
    rfl
  | cons p rest ih =>
    intro k cur db' h i hi hi' hnm
    obtain ⟨rid, ip⟩ := p
    rw [List.map_cons] at hnm
    have hnid : ¬(cur[i].id = rid) := fun hh => hnm (by rw [hh]; exact List.mem_cons_self _ _)
    have hnm' : cur[i].id ∉ rest.map Prod.fst := fun hh => hnm (List.mem_cons_of_mem _ hh)
    rw [pingLoop] at h
    split at h
    · exact absurd h (by simp)
    case _ st out heq =>
      have hi2 : i < (cur.map (fun r =>
          if r.id = rid then
            { r with hostname := envR ip, last_ping_at := some (clock k),
                     last_status := some st, last_output := some out }
          else r)).length := by
        rw [List.length_map]
        exact hi
      have hmapi : (cur.map (fun r =>
          if r.id = rid then
            { r with hostname := envR ip, last_ping_at := some (clock k),
                     last_status := some st, last_output := some out }
          else r))[i] = cur[i] := by
        rw [List.getElem_map, if_neg hnid]
      have hres := ih (k + 1) _ db' h i hi2 hi' (by rw [hmapi]; exact hnm')
      rw [hres, hmapi]

theorem pingLoop_exact (envR : String → Option String)
    (envP : String → SubprocessResult) (clock : Nat → String) :
    ∀ (rows : List (Nat × String)) (k : Nat) (cur db' : List HostRecord),
    pingLoop envR envP clock rows k cur = Except.ok db' →
    (rows.map Prod.fst).Nodup →
    ∀ j (hj : j < rows.length) i (hi : i < cur.length) (hi' : i < db'.length),
      cur[i].id = (rows[j]).1 →
      ∃ st out, run_ping (envP (rows[j]).2) = Except.ok (st, out) ∧
        db'[i] = { cur[i] with
                   hostname := envR (rows[j]).2,
                   last_ping_at := some (clock (k + j)),
                   last_status := some st, last_output := some out } := by
  intro rows
  induction rows with
  | nil =>
    intro k cur db' h _ j hj
    exact absurd hj (by simp)
  | cons p rest ih =>
    intro k cur db' h hnd j hj i hi hi' hid
    obtain ⟨rid, ip⟩ := p
    rw [List.map_cons] at hnd
    have hnd1 : rid ∉ rest.map Prod.fst := (List.nodup_cons.mp hnd).1
    have hnd2 : (rest.map Prod.fst).Nodup := (List.nodup_cons.mp hnd).2
    rw [pingLoop] at h
    split at h
    · exact absurd h (by simp)
    case _ st out heq =>
      have hi2 : i < (cur.map (fun r =>
          if r.id = rid then
            { r with hostname := envR ip, last_ping_at := some (clock k),
                     last_status := some st, last_output := some out }
          else r)).length := by
        rw [List.length_map]
        exact hi
      cases j with
      | zero =>
        have hid0 : cur[i].id = rid := by simpa using hid
        have hmapi : (cur.map (fun r =>
            if r.id = rid then
              { r with hostname := envR ip, last_ping_at := some (clock k),
                       last_status := some st, last_output := some out }
            else r))[i] =
            { cur[i] with hostname := envR ip, last_ping_at := some (clock k),
                          last_status := some st, last_output := some out } := by
          rw [List.getElem_map, if_pos hid0]
        have hnt := pingLoop_no_touch envR envP clock rest (k + 1) _ db' h i hi2 hi'
          (by rw [hmapi]; show cur[i].id ∉ rest.map Prod.fst; rw [hid0]; exact hnd1)
        refine ⟨st, out, heq, ?_⟩
        rw [hnt, hmapi]
        rfl
      | succ j' =>
        have hj' : j' < rest.length := by simpa using hj
        have hidr : cur[i].id = (rest[j']).1 := by simpa using hid
        have hne : ¬(cur[i].id = rid) := by
          intro hh
          apply hnd1
          rw [← hh]
          rw [hidr]
          exact List.mem_map.mpr ⟨rest[j'], List.getElem_mem hj', rfl⟩
        have hmapi : (cur.map (fun r =>
            if r.id = rid then
              { r with hostname := envR ip, last_ping_at := some (clock k),
                       last_status := some st, last_output := some out }
            else r))[i] = cur[i] := by
          rw [List.getElem_map, if_neg hne]
        obtain ⟨st2, out2, hrp, hdb⟩ := ih (k + 1) _ db' h hnd2 j' hj' i hi2 hi'
          (by rw [hmapi]; exact hidr)
        rw [hmapi] at hdb
        refine ⟨st2, out2, hrp, ?_⟩
        have hk : k + 1 + j' = k + (j' + 1) := by omega
        rw [← hk]
        exact hdb

/-! ## C2: failure isolation within one probe cycle -/

/-- C2 (counterexample): with two registered addresses, a `TimeoutExpired`
from the first address's ping subprocess aborts the whole cycle: the
exception propagates out of `ping_all_registered_ips` and neither the
failing address nor the remaining address `10.0.0.2` (`recB`) gets its
probe fields persisted (`last_status` and `last_ping_at` stay null). -/
theorem C2_cycle_counterexample :
    ping_all_registered_ips envResolveNone envPingTimeoutFirst clkT [recA, recB] =
      Except.error (PingExn.timeoutExpired, [recA, recB]) ∧
    recB.last_status = none ∧ recB.last_ping_at = none :=
  ⟨rfl, rfl, rfl⟩

/-- C2 (amended): probe failures that the subprocess reports as a non-zero
exit are data (`status = ERROR`) and do not abort the cycle: when every
snapshot address's ping subprocess runs to completion, the cycle completes
and every record of the starting snapshot has its own hostname, status,
output and timestamp persisted in one atomic write; but an exception from
the ping subprocess (timeout expiry or missing binary) aborts the cycle
for the failing address and every address after it. -/
theorem C2_cycle_amended (envR : String → Option String)
    (envP : String → SubprocessResult) (clock : Nat → String) (db : List HostRecord)
    (hids : (db.map (fun r => r.id)).Nodup)
    (hcompl : ∀ r ∈ db, ∃ rc o e, envP r.ip_address = SubprocessResult.completed rc o e) :
    ∃ db', ping_all_registered_ips envR envP clock db = Except.ok db' ∧
      db'.length = db.length ∧
      ∀ i (hi : i < db.length) (hi' : i < db'.length),
        ∃ st out, run_ping (envP db[i].ip_address) = Except.ok (st, out) ∧
          db'[i] = { db[i] with
                     hostname := envR db[i].ip_address,
                     last_ping_at := some (clock i),
                     last_status := some st, last_output := some out } := by
  have hfst : (db.map (fun r => (r.id, r.ip_address))).map Prod.fst =
      db.map (fun r => r.id) := by
    rw [List.map_map]
    rfl
  obtain ⟨db', hdb'⟩ := pingLoop_completes envR envP clock
    (db.map (fun r => (r.id, r.ip_address))) 0 db
    (by
      intro p hp
      obtain ⟨r, hr, rfl⟩ := List.mem_map.mp hp
      exact hcompl r hr)
  refine ⟨db', hdb', pingLoop_ok_length envR envP clock _ _ _ _ hdb', ?_⟩
  intro i hi hi'
  have hrows : i < (db.map (fun r => (r.id, r.ip_address))).length := by
    rw [List.length_map]
    exact hi
  have hrj : (db.map (fun r => (r.id, r.ip_address)))[i] = (db[i].id, db[i].ip_address) := by
    rw [List.getElem_map]
  obtain ⟨st, out, hrp, hdb⟩ := pingLoop_exact envR envP clock
    (db.map (fun r => (r.id, r.ip_address))) 0 db db' hdb'
    (by rw [hfst]; exact hids) i hrows i hi hi' (by rw [hrj])
  rw [hrj] at hrp hdb
  refine ⟨st, out, hrp, ?_⟩
  rw [hdb]
  rw [Nat.zero_add]

/-- Witness for the C2 amended theorem: the two-record store with an
all-successful ping environment completes the cycle. -/
theorem C2_cycle_amended_witness :
    ∃ db', ping_all_registered_ips envResolveNone envPingAllOk clkT [recA, recB] =
        Except.ok db' ∧ db'.length = 2 := by
  obtain ⟨db', h1, h2, h3⟩ := C2_cycle_amended envResolveNone envPingAllOk clkT
    [recA, recB] (by decide) (fun r hr => ⟨0, "pong", "", rfl⟩)
  exact ⟨db', h1, h2⟩

/-! ## Helper lemmas: listing and filtering -/

theorem insertByCreatedDesc_perm (r : HostRecord) (l : List HostRecord) :
    (insertByCreatedDesc r l).Perm (r :: l) := by
  induction l with
  | nil => exact List.Perm.refl _
  | cons x xs ih =>
    rw [insertByCreatedDesc]
    by_cases h : x.created_at ≤ r.created_at
    · rw [if_pos h]
    · rw [if_neg h]
      exact (List.Perm.cons x ih).trans (List.Perm.swap r x xs)

theorem sortByCreatedDesc_perm (db : List HostRecord) : (sortByCreatedDesc db).Perm db := by
  induction db with
  | nil => exact List.Perm.refl _
  | cons x xs ih =>
    show (insertByCreatedDesc x (sortByCreatedDesc xs)).Perm (x :: xs)
    exact (insertByCreatedDesc_perm x _).trans (List.Perm.cons x ih)

theorem pairwise_insertByCreatedDesc (r : HostRecord) (l : List HostRecord)
    (h : List.Pairwise (fun a b => b.created_at ≤ a.created_at) l) :
    List.Pairwise (fun a b => b.created_at ≤ a.created_at) (insertByCreatedDesc r l) := by
  induction l with
  | nil => simp [insertByCreatedDesc]
  | cons x xs ih =>
    rw [insertByCreatedDesc]
    rcases List.pairwise_cons.mp h with ⟨hx, hxs⟩
    by_cases hc : x.created_at ≤ r.created_at
    · rw [if_pos hc]
      refine List.pairwise_cons.mpr ⟨?_, h⟩
      intro y hy
      rcases List.mem_cons.mp hy with rfl | hy'
      · exact hc
      · exact le_trans (hx y hy') hc
    · rw [if_neg hc]
      refine List.pairwise_cons.mpr ⟨?_, ih hxs⟩
      intro y hy
      rcases List.mem_cons.mp ((insertByCreatedDesc_perm r xs).mem_iff.mp hy) with rfl | hy'
      · exact le_of_not_le hc
      · exact hx y hy'

theorem sortByCreatedDesc_sorted (db : List HostRecord) :
    List.Pairwise (fun a b => b.created_at ≤ a.created_at) (sortByCreatedDesc db) := by
  induction db with
  | nil => simp [sortByCreatedDesc]
  | cons x xs ih =>
    exact pairwise_insertByCreatedDesc x _ ih

theorem filterMap_congr_mem {α β : Type} (l : List α) (f g : α → Option β)
    (h : ∀ x ∈ l, f x = g x) : l.filterMap f = l.filterMap g := by
  induction l with
  | nil => rfl
  | cons a t ih =>
    rw [List.filterMap_cons, List.filterMap_cons, h a (by simp),
      ih (fun x hx => h x (by simp [hx]))]

theorem rowsLoop_eq_filterMap (flt : Option String) (l : List HostRecord)
    (hdef : ∀ r ∈ l, ∃ seg b, infer_segment_24 r.ip_address = some seg ∧
        rowKeep flt r seg = some b) :
    rowsLoop flt l = some (l.filterMap (fun r =>
      match infer_segment_24 r.ip_address with
      | none => none
      | some seg =>
        match rowKeep flt r seg with
        | some true => some (renderRow r seg)
        | _ => none)) := by
  induction l with
  | nil => rfl
  | cons r rest ih =>
    obtain ⟨seg, b, hseg, hkeep⟩ := hdef r (by simp)
    have hrest := ih (fun x hx => hdef x (by simp [hx]))
    simp only [rowsLoop, hseg, hkeep, hrest, List.filterMap_cons]
    cases b
    · simp
    · simp

theorem v4netToString_ne_IPv6 (np : Nat × Nat) : v4netToString np ≠ "IPv6" := by
  intro h
  have h1 : '/' ∈ (v4netToString np).data := by
    show '/' ∈ (v4IntToDotted np.1 ++ "/" ++ toString np.2).data
    rw [data_append, data_append]
    simp
  rw [h] at h1
  exact absurd h1 (by decide)

theorem infer_segment_cases (s : String) (seg : String)
    (h : infer_segment_24 s = some seg) :
    (∃ q, parseIPv4core s.data = some q ∧ seg ≠ "IPv6") ∨
    (parseIPv4core s.data = none ∧ seg = "IPv6") := by
  cases hq : parseIPv4core s.data with
  | some q =>
    left
    refine ⟨q, rfl, ?_⟩
    rw [infer_segment_24, ip_address_parse_of_v4 s q hq] at h
    cases hn : ipv4NetworkOfString (s ++ "/24") with
    | none => rw [hn] at h; exact absurd h (by simp)
    | some np =>
      rw [hn] at h
      have hseg : v4netToString np = seg := by
        injection h
      rw [← hseg]
      exact v4netToString_ne_IPv6 np
  | none =>
    right
    refine ⟨rfl, ?_⟩
    rw [infer_segment_24] at h
    rw [ip_address_parse] at h
    rw [hq] at h
    by_cases h6 : parseIPv6 s = true
    · rw [if_pos h6] at h
      injection h with h'
      exact h'.symm
    · rw [if_neg h6] at h
      exact absurd h (by simp)

theorem third_octet_of_v4 (l : List Char) (a b c d : Nat)
    (h : parseIPv4core l = some (a, b, c, d)) :
    pyIntOfDigits ((splitListChar '.' l).getD 2 []) = some c := by
  obtain ⟨g1, g2, g3, g4, hs, h1, h2, h3, h4⟩ := parseIPv4core_parts l _ h
  rw [hs]
  obtain ⟨hne, hdig, hval, hle⟩ := parseOctetChars_some g3 _ h3
  show pyIntOfDigits g3 = some c
  rw [pyIntOfDigits, if_pos ⟨hne, hdig⟩, ← hval]

theorem rowKeep_cidr (f : String) (hne : f ≠ "")
    (hsw : startsWithChars f.data ("THIRD_OCTET:".data) = false)
    (r : HostRecord) (seg : String) :
    rowKeep (some f) r seg = some (decide (seg = f)) := by
  rw [rowKeep, if_neg hne, if_neg (by simp [hsw])]

theorem rowKeep_third (g : List Char) (hg : g ≠ []) (hdig : g.all Char.isDigit = true)
    (r : HostRecord) (seg : String) :
    rowKeep (some ("THIRD_OCTET:" ++ String.mk g)) r seg =
      if seg = "IPv6" then some false
      else
        match pyIntOfDigits ((splitListChar '.' r.ip_address.data).getD 2 []) with
        | some third => some (decide (third = digitsToNat g))
        | none => none := by
  have hdata : ("THIRD_OCTET:" ++ String.mk g).data = "THIRD_OCTET:".data ++ g := rfl
  have hne : ("THIRD_OCTET:" ++ String.mk g) ≠ "" := by
    intro hh
    have hd := congrArg String.data hh
    rw [hdata] at hd
    rcases List.append_eq_nil.mp hd with ⟨h1, _⟩
    exact absurd h1 (by decide)
  have hsw : startsWithChars ("THIRD_OCTET:" ++ String.mk g).data ("THIRD_OCTET:".data) = true := by
    rw [hdata]
    unfold startsWithChars
    rw [decide_eq_true_iff]
    exact List.take_left _ _
  have hdrop : ("THIRD_OCTET:" ++ String.mk g).data.drop 12 = g := by
    rw [hdata, show (12 : Nat) = ("THIRD_OCTET:".data).length from rfl]
    exact List.drop_left _ _
  rw [rowKeep, if_neg hne, if_pos (by rw [hsw])]
  by_cases hseg : seg = "IPv6"
  · rw [if_pos hseg, if_pos hseg]
  · rw [if_neg hseg, if_neg hseg, hdrop,
      show pyIntOfDigits g = some (digitsToNat g) from by rw [pyIntOfDigits, if_pos ⟨hg, hdig⟩]]
    cases hx : pyIntOfDigits ((splitListChar '.' r.ip_address.data).getD 2 []) with
    | some third => rfl
    | none => rfl

/-! ## C8: listing, ordering and the two filter kinds -/

/-- C8: `get_rows` returns the registered records with their computed
segment in an order sorted newest `created_at` first (a sorted permutation
of the table); with a `THIRD_OCTET:<n>` token it includes exactly the IPv4
records whose third dotted octet equals `n` (IPv6 records are always
excluded by this filter kind); with any other non-empty token — in
particular a CIDR token — it includes exactly the records whose computed
segment equals the token string. -/
theorem C8_get_rows (db : List HostRecord)
    (hseg : ∀ r ∈ db, (infer_segment_24 r.ip_address).isSome = true) :
    ∃ sorted : List HostRecord, sorted.Perm db ∧
      List.Pairwise (fun a b => b.created_at ≤ a.created_at) sorted ∧
      get_rows none db =
        some (sorted.filterMap (fun r => (infer_segment_24 r.ip_address).map (renderRow r))) ∧
      (∀ g : List Char, g ≠ [] → g.all Char.isDigit = true →
        get_rows (some ("THIRD_OCTET:" ++ String.mk g)) db =
          some (sorted.filterMap (fun r =>
            match parseIPv4core r.ip_address.data with
            | some q =>
              if q.2.2.1 = digitsToNat g then (infer_segment_24 r.ip_address).map (renderRow r)
              else none
            | none => none))) ∧
      (∀ f : String, f ≠ "" → startsWithChars f.data ("THIRD_OCTET:".data) = false →
        get_rows (some f) db =
          some (sorted.filterMap (fun r =>
            match infer_segment_24 r.ip_address with
            | some seg => if seg = f then some (renderRow r seg) else none
            | none => none))) := by
  have hseg' : ∀ r ∈ sortByCreatedDesc db, ∃ seg, infer_segment_24 r.ip_address = some seg := by
    intro r hr
    exact Option.isSome_iff_exists.mp (hseg r ((sortByCreatedDesc_perm db).mem_iff.mp hr))
  refine ⟨sortByCreatedDesc db, sortByCreatedDesc_perm db, sortByCreatedDesc_sorted db,
    ?_, ?_, ?_⟩
  · rw [get_rows, rowsLoop_eq_filterMap none _ (fun r hr => by
      obtain ⟨seg, hsg⟩ := hseg' r hr
      exact ⟨seg, true, hsg, rfl⟩)]
    refine congrArg some (filterMap_congr_mem _ _ _ ?_)
    intro x hx
    obtain ⟨seg, hsg⟩ := hseg' x hx
    simp [hsg, rowKeep]
  · intro g hg hdig
    have hdef3 : ∀ r ∈ sortByCreatedDesc db, ∃ seg b,
        infer_segment_24 r.ip_address = some seg ∧
        rowKeep (some ("THIRD_OCTET:" ++ String.mk g)) r seg = some b := by
      intro r hr
      obtain ⟨seg, hsg⟩ := hseg' r hr
      rcases infer_segment_cases _ _ hsg with ⟨⟨a, b, c, d⟩, hq, hne6⟩ | ⟨hq, hseg6⟩
      · refine ⟨seg, decide (c = digitsToNat g), hsg, ?_⟩
        rw [rowKeep_third g hg hdig, if_neg hne6, third_octet_of_v4 _ a b c d hq]
      · exact ⟨seg, false, hsg, by rw [rowKeep_third g hg hdig, if_pos hseg6]⟩
    rw [get_rows, rowsLoop_eq_filterMap _ _ hdef3]
    refine congrArg some (filterMap_congr_mem _ _ _ ?_)
    intro x hx
    obtain ⟨seg, hsg⟩ := hseg' x hx
    rcases infer_segment_cases _ _ hsg with ⟨⟨a, b, c, d⟩, hq, hne6⟩ | ⟨hq, hseg6⟩
    · have hkeep : rowKeep (some ("THIRD_OCTET:" ++ String.mk g)) x seg =
          some (decide (c = digitsToNat g)) := by
        rw [rowKeep_third g hg hdig, if_neg hne6, third_octet_of_v4 _ a b c d hq]
      by_cases hcn : c = digitsToNat g
      · simp [hsg, hq, hkeep, hcn]
      · simp [hsg, hq, hkeep, hcn]
    · have hkeep : rowKeep (some ("THIRD_OCTET:" ++ String.mk g)) x seg = some false := by
        rw [rowKeep_third g hg hdig, if_pos hseg6]
      simp [hsg, hq, hkeep]
  · intro f hne hsw
    have hdefc : ∀ r ∈ sortByCreatedDesc db, ∃ seg b,
        infer_segment_24 r.ip_address = some seg ∧ rowKeep (some f) r seg = some b := by
      intro r hr
      obtain ⟨seg, hsg⟩ := hseg' r hr
      exact ⟨seg, decide (seg = f), hsg, rowKeep_cidr f hne hsw r seg⟩
    rw [get_rows, rowsLoop_eq_filterMap _ _ hdefc]
    refine congrArg some (filterMap_congr_mem _ _ _ ?_)
    intro x hx
    obtain ⟨seg, hsg⟩ := hseg' x hx
    have hkeep := rowKeep_cidr f hne hsw x seg
    by_cases hsf : seg = f
    · subst hsf
      simp [hsg, hkeep]
    · simp [hsg, hkeep, hsf]

/-- Witness for C8 at the spec's example store: the third-octet token `56`
and the CIDR token `192.168.59.0/24` on the two registered addresses
`192.168.56.10` and `192.168.59.20`. -/
theorem C8_get_rows_witness :
    ∃ sorted : List HostRecord, sorted.Perm [rec56, rec59] ∧
      List.Pairwise (fun a b => b.created_at ≤ a.created_at) sorted ∧
      get_rows (some ("THIRD_OCTET:" ++ String.mk ['5', '6'])) [rec56, rec59] =
        some (sorted.filterMap (fun r =>
          match parseIPv4core r.ip_address.data with
          | some q =>
            if q.2.2.1 = digitsToNat ['5', '6'] then
              (infer_segment_24 r.ip_address).map (renderRow r)
            else none
          | none => none)) ∧
      get_rows (some "192.168.59.0/24") [rec56, rec59] =
        some (sorted.filterMap (fun r =>
          match infer_segment_24 r.ip_address with
          | some seg => if seg = "192.168.59.0/24" then some (renderRow r seg) else none
          | none => none)) := by
  obtain ⟨sorted, h1, h2, _, h4, h5⟩ := C8_get_rows [rec56, rec59] (by decide)
  exact ⟨sorted, h1, h2, h4 ['5', '6'] (by decide) (by decide),
    h5 "192.168.59.0/24" (by decide) (by decide)⟩
